import Mathlib

/-!
Verification development for the candidate-retrieval / coverage-scoring core
of the recipe-search backend (`query_top_k.py` and `nlp_utils.py`).

Strings are modelled as lists of Unicode code points (`List Nat`), so that
Python string primitives (`str.lower`, `str.strip`, `re.sub`, `str.split`)
become plain list functions.  Python `\w` / `\s` character classes and
`str.lower` are modelled at ASCII precision (the repository data and tests
are ASCII).  Third-party callees that are not part of the repository
(rapidfuzz `fuzz.token_set_ratio`, scipy `linear_sum_assignment`, the spacy
entity extractor, `json.loads` / `json.dumps`) are environment parameters of
the embedding, constrained only where a claim needs their documented
behaviour.
-/

namespace RecipeBot

/-- Python strings as lists of code points. -/
abbrev PyStr := List Nat

/-- ASCII model of `str.lower` on a single code point. -/
def lowerChar (c : Nat) : Nat := if 65 ≤ c ∧ c ≤ 90 then c + 32 else c

/-- Model of `str.lower`. -/
def pyLower (s : PyStr) : PyStr := s.map lowerChar

/-- Python regex class `\s` (ASCII part): space, tab, LF, VT, FF, CR. -/
def isPySpace (c : Nat) : Bool :=
  c = 32 || c = 9 || c = 10 || c = 11 || c = 12 || c = 13

/-- Python regex class `\w` (ASCII part): digits, letters, underscore. -/
def isWordChar (c : Nat) : Bool :=
  (48 ≤ c && c ≤ 57) || (65 ≤ c && c ≤ 90) || (97 ≤ c && c ≤ 122) || c = 95

/-- Model of `str.strip()`: drop whitespace from both ends. -/
def pyStrip (s : PyStr) : PyStr :=
  ((s.dropWhile isPySpace).reverse.dropWhile isPySpace).reverse

/-- Model of `re.sub(r"[^\w\s]", "", text)`: delete every character that is
neither a word character nor whitespace. -/
def subNonWordSpace (s : PyStr) : PyStr :=
  s.filter (fun c => isWordChar c || isPySpace c)

/-- Model of `re.sub(r"\s+", " ", text)`: replace every maximal run of
whitespace by a single space (code point 32).  A whitespace character whose
successor is also whitespace is dropped; the last character of a run is
replaced by 32. -/
def collapseSpaces : PyStr → PyStr
  | [] => []
  | [c] => if isPySpace c then [32] else [c]
  | c :: d :: rest =>
    if isPySpace c then
      if isPySpace d then collapseSpaces (d :: rest)
      else 32 :: collapseSpaces (d :: rest)
    else c :: collapseSpaces (d :: rest)

/-- Embedding of `normalize_ingredient_name` (query_top_k.py:32):
`text.lower().strip()`, then `re.sub(r"[^\w\s]", "", text)`, then
`re.sub(r"\s+", " ", text)`.  Note the strip happens before punctuation
removal. -/
def normalize_ingredient_name (text : PyStr) : PyStr :=
  collapseSpaces (subNonWordSpace (pyStrip (pyLower text)))

/-! Helper lemmas for the normalizer. -/

theorem lowerChar_idem (c : Nat) : lowerChar (lowerChar c) = lowerChar c := by
  unfold lowerChar
  split
  · split <;> omega
  · rfl

theorem collapseSpaces_nil : collapseSpaces [] = [] := rfl

theorem collapseSpaces_one (c : Nat) :
    collapseSpaces [c] = if isPySpace c then [32] else [c] := rfl

theorem collapseSpaces_ss {d e : Nat} (rest : PyStr)
    (hd : isPySpace d = true) (he : isPySpace e = true) :
    collapseSpaces (d :: e :: rest) = collapseSpaces (e :: rest) := by
  simp [collapseSpaces, hd, he]

theorem collapseSpaces_sn {d e : Nat} (rest : PyStr)
    (hd : isPySpace d = true) (he : ¬ isPySpace e = true) :
    collapseSpaces (d :: e :: rest) = 32 :: collapseSpaces (e :: rest) := by
  simp [collapseSpaces, hd, he]

theorem collapseSpaces_n {d : Nat} (e : Nat) (rest : PyStr)
    (hd : ¬ isPySpace d = true) :
    collapseSpaces (d :: e :: rest) = d :: collapseSpaces (e :: rest) := by
  simp [collapseSpaces, hd]

theorem mem_collapseSpaces {c : Nat} :
    ∀ {l : PyStr}, c ∈ collapseSpaces l → c = 32 ∨ c ∈ l
  | [], h => by simp [collapseSpaces_nil] at h
  | [d], h => by
    rw [collapseSpaces_one] at h
    by_cases hd : isPySpace d = true
    · rw [if_pos hd] at h
      exact Or.inl (by simpa using h)
    · rw [if_neg hd] at h
      exact Or.inr h
  | d :: e :: rest, h => by
    by_cases hd : isPySpace d = true
    · by_cases he : isPySpace e = true
      · rw [collapseSpaces_ss rest hd he] at h
        exact (mem_collapseSpaces h).imp id (List.mem_cons_of_mem d)
      · rw [collapseSpaces_sn rest hd he] at h
        rcases List.mem_cons.mp h with h32 | h2
        · exact Or.inl h32
        · exact (mem_collapseSpaces h2).imp id (List.mem_cons_of_mem d)
    · rw [collapseSpaces_n e rest hd] at h
      rcases List.mem_cons.mp h with hcd | h2
      · exact Or.inr (by simp [hcd])
      · exact (mem_collapseSpaces h2).imp id (List.mem_cons_of_mem d)

theorem mem_pyStrip {c : Nat} {l : PyStr} (h : c ∈ pyStrip l) : c ∈ l := by
  unfold pyStrip at h
  rw [List.mem_reverse] at h
  have h2 := (List.dropWhile_sublist (l := (l.dropWhile isPySpace).reverse) isPySpace).subset h
  rw [List.mem_reverse] at h2
  exact (List.dropWhile_sublist isPySpace).subset h2

/-- Every character of the normalizer output is a space (32) or survives the
word-or-space filter; in both cases it is fixed by ASCII lowercasing. -/
theorem mem_normalize_props {c : Nat} {x : PyStr}
    (h : c ∈ normalize_ingredient_name x) :
    (isWordChar c || isPySpace c) = true ∧ lowerChar c = c := by
  unfold normalize_ingredient_name at h
  rcases mem_collapseSpaces h with h32 | hmem
  · subst h32
    refine ⟨by decide, by decide⟩
  · have hp := List.of_mem_filter hmem
    have hin : c ∈ pyStrip (pyLower x) := (List.filter_sublist _).mem hmem
    have hin2 : c ∈ pyLower x := mem_pyStrip hin
    rcases List.mem_map.mp hin2 with ⟨d, _, hd⟩
    refine ⟨hp, ?_⟩
    rw [← hd, lowerChar_idem]

theorem map_id_of_fixed {α : Type} {f : α → α} :
    ∀ {l : List α}, (∀ a ∈ l, f a = a) → l.map f = l
  | [], _ => rfl
  | a :: t, h => by
    simp only [List.map_cons, List.cons.injEq]
    exact ⟨h a (by simp), map_id_of_fixed (fun b hb => h b (by simp [hb]))⟩

/-- No two adjacent whitespace characters, and every whitespace character is
exactly the space 32. -/
def SingleSpaced (l : PyStr) : Prop :=
  l.Chain' (fun a b => ¬(isPySpace a = true ∧ isPySpace b = true)) ∧
    ∀ a ∈ l, isPySpace a = true → a = 32

theorem collapseSpaces_singleSpaced : ∀ (l : PyStr), SingleSpaced (collapseSpaces l)
  | [] => ⟨List.chain'_nil, by simp [collapseSpaces_nil]⟩
  | [c] => by
    rw [collapseSpaces_one]
    by_cases hc : isPySpace c = true
    · rw [if_pos hc]
      exact ⟨List.chain'_singleton _, by intro a ha _; simpa using ha⟩
    · rw [if_neg hc]
      refine ⟨List.chain'_singleton _, ?_⟩
      intro a ha hs
      simp only [List.mem_singleton] at ha
      rw [ha] at hs
      exact absurd hs hc
  | c :: d :: rest => by
    have IH := collapseSpaces_singleSpaced (d :: rest)
    by_cases hc : isPySpace c = true
    · by_cases hd : isPySpace d = true
      · rw [collapseSpaces_ss rest hc hd]
        exact IH
      · rw [collapseSpaces_sn rest hc hd]
        constructor
        · cases rest with
          | nil =>
            rw [collapseSpaces_one, if_neg hd]
            exact List.chain'_pair.mpr (fun hcon => hd hcon.2)
          | cons e r2 =>
            rw [collapseSpaces_n e r2 hd, List.chain'_cons]
            refine ⟨fun hcon => hd hcon.2, ?_⟩
            rw [← collapseSpaces_n e r2 hd]
            exact IH.1
        · intro a ha hs
          rcases List.mem_cons.mp ha with h32 | hmem
          · exact h32
          · exact IH.2 a hmem hs
    · rw [collapseSpaces_n d rest hc]
      constructor
      · rw [List.chain'_cons']
        refine ⟨?_, IH.1⟩
        intro y _ hcon
        exact hc hcon.1
      · intro a ha hs
        rcases List.mem_cons.mp ha with hac | hmem
        · rw [hac] at hs; exact absurd hs hc
        · exact IH.2 a hmem hs

theorem collapseSpaces_of_singleSpaced :
    ∀ (l : PyStr), SingleSpaced l → collapseSpaces l = l
  | [], _ => rfl
  | [c], h => by
    rw [collapseSpaces_one]
    by_cases hc : isPySpace c = true
    · rw [if_pos hc, h.2 c (by simp) hc]
    · rw [if_neg hc]
  | c :: d :: rest, h => by
    have hch := List.chain'_cons.mp h.1
    have htail : SingleSpaced (d :: rest) :=
      ⟨hch.2, fun a ha hs => h.2 a (by simp [ha]) hs⟩
    have IH := collapseSpaces_of_singleSpaced (d :: rest) htail
    by_cases hc : isPySpace c = true
    · have hd : ¬ isPySpace d = true := fun hd => hch.1 ⟨hc, hd⟩
      have hc32 : c = 32 := h.2 c (by simp) hc
      rw [collapseSpaces_sn rest hc hd, IH, hc32]
    · rw [collapseSpaces_n d rest hc, IH]

theorem singleSpaced_reverse {l : PyStr} (h : SingleSpaced l) :
    SingleSpaced l.reverse := by
  constructor
  · rw [List.chain'_reverse]
    exact h.1.imp (fun a b h2 hcon => h2 ⟨hcon.2, hcon.1⟩)
  · intro a ha hs
    exact h.2 a (List.mem_reverse.mp ha) hs

theorem singleSpaced_dropWhile {p : Nat → Bool} {l : PyStr} (h : SingleSpaced l) :
    SingleSpaced (l.dropWhile p) := by
  constructor
  · exact h.1.suffix (List.dropWhile_suffix p)
  · intro a ha hs
    exact h.2 a ((List.dropWhile_sublist p).subset ha) hs

theorem singleSpaced_pyStrip {l : PyStr} (h : SingleSpaced l) :
    SingleSpaced (pyStrip l) := by
  unfold pyStrip
  exact singleSpaced_reverse (singleSpaced_dropWhile (singleSpaced_reverse
    (singleSpaced_dropWhile h)))

/-- Applying the normalizer twice is the same as trimming boundary whitespace
from the output of one application. -/
theorem normalize_twice_eq_strip_normalize (x : PyStr) :
    normalize_ingredient_name (normalize_ingredient_name x) =
      pyStrip (normalize_ingredient_name x) := by
  set y := normalize_ingredient_name x with hy
  have hlow : pyLower y = y :=
    map_id_of_fixed (fun a ha => (mem_normalize_props (hy ▸ ha)).2)
  have hss : SingleSpaced y := by
    rw [hy]
    unfold normalize_ingredient_name
    exact collapseSpaces_singleSpaced _
  have hfil : subNonWordSpace (pyStrip y) = pyStrip y := by
    unfold subNonWordSpace
    rw [List.filter_eq_self]
    intro a ha
    exact (mem_normalize_props (hy ▸ mem_pyStrip ha)).1
  conv_lhs => rw [normalize_ingredient_name, hlow]
  rw [hfil]
  exact collapseSpaces_of_singleSpaced _ (singleSpaced_pyStrip hss)

/-- C1: the claim as stated is false: the normalizer is not idempotent.  On
the input "a ." (code points [97, 32, 46]) the first pass yields "a " — the
strip runs before punctuation removal, so removing the final "." exposes a
trailing space — while the second pass yields "a". -/
theorem c1_normalize_not_idempotent :
    normalize_ingredient_name (normalize_ingredient_name [97, 32, 46]) ≠
      normalize_ingredient_name [97, 32, 46] := by
  decide

/-- C1 (amended): a second application of the normalizer only trims boundary
whitespace: `normalize (normalize x) = strip (normalize x)` for every input;
in particular the normalizer is idempotent on every input whose single-pass
output has no leading or trailing whitespace (e.g. punctuation-free inputs). -/
theorem c1_normalize_idempotent_up_to_strip (x : PyStr) :
    normalize_ingredient_name (normalize_ingredient_name x) =
      pyStrip (normalize_ingredient_name x) :=
  normalize_twice_eq_strip_normalize x

/-!
Near-duplicate suppressor (`deduplicate_candidates`, query_top_k.py:43).
The third-party callees are parameters of the embedding:
`sim` models `rapidfuzz.fuzz.token_set_ratio` (scaled 0-100), applied by the
code to the CANDIDATE URL STRINGS (`cdist(candidate_urls, candidate_urls)`),
and `lenOf u` models `len(json.dumps(recipes_dict[u]))`.
-/

/-- Index pairs of the strict upper triangle of an n x n matrix, as produced
by `np.triu_indices(n, k=1)`. -/
def upperTriPairs (n : Nat) : List (Nat × Nat) :=
  (List.range n).flatMap
    (fun i => ((List.range n).filter (fun j => i < j)).map (fun j => (i, j)))

/-- Embedding of `deduplicate_candidates` (query_top_k.py:43): for every
upper-triangle pair of candidates whose url-string similarity reaches the
threshold, drop the one with the shorter serialized record (the second of
the pair on ties); keep everything not dropped, in input order. -/
def deduplicate_candidates (sim : PyStr → PyStr → Rat) (lenOf : PyStr → Nat)
    (candidates : List (PyStr × Nat)) (threshold : Rat) : List (PyStr × Nat) :=
  let n : Nat := candidates.length
  let url : Nat → PyStr := fun i => (candidates.getD i ([], 0)).1
  let selPairs : List (Nat × Nat) := (upperTriPairs n).filter
    (fun p => threshold ≤ sim (url p.1) (url p.2))
  let dropIdxs : List Nat := selPairs.map
    (fun p => if lenOf (url p.2) ≤ lenOf (url p.1) then p.2 else p.1)
  ((List.range n).filter (fun i => !(decide (i ∈ dropIdxs)))).map
    (fun i => candidates.getD i ([], 0))

theorem mem_upperTriPairs {n : Nat} {p : Nat × Nat} (h : p ∈ upperTriPairs n) :
    p.1 < p.2 ∧ p.2 < n := by
  unfold upperTriPairs at h
  rcases List.mem_flatMap.mp h with ⟨i, _, hmem⟩
  rcases List.mem_map.mp hmem with ⟨j, hj, hpe⟩
  have hj2 := List.mem_filter.mp hj
  rw [← hpe]
  exact ⟨by simpa using hj2.2, List.mem_range.mp hj2.1⟩

/-- C2 (code bug): the suppressor computes similarity over the candidate URL
strings, never reading the titles in `recipes_dict`.  On the repository's own
test input (`test_deduplicate_candidates`: urls "A","B","C", titles
"Test Stew"/"Test Stew"/"Other", threshold 90) all pairwise url similarities
are 0 — `token_set_ratio` of the distinct single letters — so nothing is
dropped and candidate A survives, while the test asserts A is dropped in
favour of the longer-payload B.  The theorem evaluates the embedded code at
that input: whenever the three url-pair similarities are below the threshold
(as they are for `token_set_ratio` on "A","B","C"), the output is the whole
input, A included. -/
theorem c2_dedupe_ignores_titles (sim : PyStr → PyStr → Rat) (lenOf : PyStr → Nat)
    (h1 : sim [65] [66] < 90) (h2 : sim [65] [67] < 90) (h3 : sim [66] [67] < 90) :
    deduplicate_candidates sim lenOf [([65], 1), ([66], 2), ([67], 1)] 90 =
      [([65], 1), ([66], 2), ([67], 1)] := by
  have e1 : ¬ ((90 : Rat) ≤ sim [65] [66]) := not_le.mpr h1
  have e2 : ¬ ((90 : Rat) ≤ sim [65] [67]) := not_le.mpr h2
  have e3 : ¬ ((90 : Rat) ≤ sim [66] [67]) := not_le.mpr h3
  simp [deduplicate_candidates, upperTriPairs, List.range_succ, e1, e2, e3]

/-- C2 witness: the theorem applied at a concrete similarity function that is
below the threshold on all the url pairs, as `token_set_ratio` is. -/
theorem c2_dedupe_ignores_titles_witness :
    ((fun (_ _ : PyStr) => (0 : Rat)) [65] [66] < 90) ∧
      deduplicate_candidates (fun _ _ => (0 : Rat)) (fun _ => 0)
        [([65], 1), ([66], 2), ([67], 1)] 90 = [([65], 1), ([66], 2), ([67], 1)] :=
  ⟨by norm_num, c2_dedupe_ignores_titles (fun _ _ => 0) (fun _ => 0)
    (by norm_num) (by norm_num) (by norm_num)⟩

theorem c6_exists_survivor (sim : PyStr → PyStr → Rat) (lenOf : PyStr → Nat)
    (candidates : List (PyStr × Nat)) (threshold : Rat)
    (hne : candidates ≠ []) :
    deduplicate_candidates sim lenOf candidates threshold ≠ [] := by
  have hn : 0 < candidates.length := List.length_pos.mpr hne
  set n := candidates.length with hnn
  set url := fun i => (candidates.getD i ([], 0)).1 with hurl
  set len := fun i => lenOf (url i) with hlen
  -- the first index attaining the maximal serialized length
  have hex : ∃ i, i < n ∧ ∀ j, j < n → len j ≤ len i := by
    rcases Finset.exists_max_image (Finset.range n) len ⟨0, Finset.mem_range.mpr hn⟩
      with ⟨i, hi, hmax⟩
    exact ⟨i, Finset.mem_range.mp hi,
      fun j hj => hmax j (Finset.mem_range.mpr hj)⟩
  classical
  let P : Nat → Prop := fun i => i < n ∧ ∀ j, j < n → len j ≤ len i
  have hPex : ∃ i, P i := hex
  let m := Nat.find hPex
  have hPm : P m := Nat.find_spec hPex
  have hmin : ∀ j, j < m → ¬ P j := fun j hj => Nat.find_min hPex hj
  have hstrict : ∀ j, j < m → len j < len m := by
    intro j hj
    have hjn : j < n := lt_trans hj hPm.1
    have : ¬ (∀ k, k < n → len k ≤ len j) := by
      intro hall
      exact hmin j hj ⟨hjn, hall⟩
    push_neg at this
    rcases this with ⟨k, hk, hkj⟩
    exact lt_of_lt_of_le hkj (hPm.2 k hk)
  -- m is never dropped
  have hkeep : m ∉ ((upperTriPairs n).filter
      (fun p => threshold ≤ sim (url p.1) (url p.2))).map
      (fun p => if lenOf (url p.2) ≤ lenOf (url p.1) then p.2 else p.1) := by
    intro hmem
    rcases List.mem_map.mp hmem with ⟨p, hp, hpd⟩
    have hub := mem_upperTriPairs (List.mem_filter.mp hp).1
    by_cases hc : lenOf (url p.2) ≤ lenOf (url p.1)
    · rw [if_pos hc] at hpd
      have h1 : len p.1 < len m := hstrict p.1 (hpd ▸ hub.1)
      rw [← hpd] at h1
      exact absurd hc (not_le.mpr h1)
    · rw [if_neg hc] at hpd
      have h2 : len p.2 ≤ len m := hPm.2 p.2 hub.2
      rw [← hpd] at h2
      exact hc h2
  have hmm : m ∈ (List.range n).filter
      (fun i => !(decide (i ∈ ((upperTriPairs n).filter
        (fun p => threshold ≤ sim (url p.1) (url p.2))).map
        (fun p => if lenOf (url p.2) ≤ lenOf (url p.1) then p.2 else p.1)))) := by
    rw [List.mem_filter]
    exact ⟨List.mem_range.mpr hPm.1, by simp [hkeep]⟩
  have hdef : deduplicate_candidates sim lenOf candidates threshold =
      ((List.range n).filter (fun i => !(decide (i ∈ ((upperTriPairs n).filter
        (fun p => threshold ≤ sim (url p.1) (url p.2))).map
        (fun p => if lenOf (url p.2) ≤ lenOf (url p.1) then p.2 else p.1))))).map
      (fun i => candidates.getD i ([], 0)) := rfl
  rw [hdef]
  exact List.ne_nil_of_mem (List.mem_map_of_mem _ hmm)

/-- Helper: selecting the positions of a list that satisfy an index predicate,
in increasing position order, yields a sublist. -/
theorem filter_range_map_getD_sublist {α : Type} (d : α) :
    ∀ (l : List α) (p : Nat → Bool),
      ((((List.range l.length).filter p).map (fun i => l.getD i d))).Sublist l
  | [], _ => by simp
  | a :: t, p => by
    have IH := filter_range_map_getD_sublist d t (fun i => p (i + 1))
    rw [List.length_cons, List.range_succ_eq_map, List.filter_cons]
    have hmm : ((List.filter p ((List.range t.length).map Nat.succ)).map
        (fun i => (a :: t).getD i d)) =
        ((List.range t.length).filter (fun i => p (i + 1))).map
          (fun i => t.getD i d) := by
      rw [List.filter_map, List.map_map]
      apply List.map_congr_left
      intro i _
      simp [Function.comp]
    by_cases hp : p 0 = true
    · rw [if_pos hp, List.map_cons, List.getD_cons_zero, hmm]
      exact List.Sublist.cons₂ a IH
    · rw [if_neg hp, hmm]
      exact List.Sublist.cons a IH

theorem dedup_sublist (sim : PyStr → PyStr → Rat) (lenOf : PyStr → Nat)
    (candidates : List (PyStr × Nat)) (threshold : Rat) :
    (deduplicate_candidates sim lenOf candidates threshold).Sublist candidates := by
  unfold deduplicate_candidates
  exact filter_range_map_getD_sublist ([], 0) candidates _

/-- C6: the near-duplicate suppressor returns an empty list only when its
input was empty: for every non-empty candidate list — under any similarity
function, any serialized-length function and any threshold — at least one
candidate survives (the first candidate of maximal serialized length is never
selected for dropping). -/
theorem c6_dedupe_nonempty (sim : PyStr → PyStr → Rat) (lenOf : PyStr → Nat)
    (candidates : List (PyStr × Nat)) (threshold : Rat)
    (hne : candidates ≠ []) :
    deduplicate_candidates sim lenOf candidates threshold ≠ [] :=
  c6_exists_survivor sim lenOf candidates threshold hne

/-- C6 witness: a concrete one-element candidate list survives dedup. -/
theorem c6_dedupe_nonempty_witness :
    ([(([97] : PyStr), 1)] ≠ ([] : List (PyStr × Nat))) ∧
      deduplicate_candidates (fun _ _ => 100) (fun _ => 0) [([97], 1)] 95 ≠ [] :=
  ⟨by decide, c6_dedupe_nonempty (fun _ _ => 100) (fun _ => 0) [([97], 1)] 95 (by decide)⟩

/-- C10: the suppressor's output is a subsequence of its input — every kept
element is an unmodified (url, matched_count) pair, in input order — so an
input sorted descending by matched_count stays sorted descending after
deduplication. -/
theorem c10_dedupe_subsequence (sim : PyStr → PyStr → Rat) (lenOf : PyStr → Nat)
    (candidates : List (PyStr × Nat)) (threshold : Rat)
    (hs : List.Pairwise (fun (a b : PyStr × Nat) => b.2 ≤ a.2) candidates) :
    (deduplicate_candidates sim lenOf candidates threshold).Sublist candidates ∧
      List.Pairwise (fun (a b : PyStr × Nat) => b.2 ≤ a.2)
        (deduplicate_candidates sim lenOf candidates threshold) :=
  ⟨dedup_sublist sim lenOf candidates threshold,
    List.Pairwise.sublist (dedup_sublist sim lenOf candidates threshold) hs⟩

/-- C10 witness: concrete descending candidate list. -/
theorem c10_dedupe_subsequence_witness :
    List.Pairwise (fun (a b : PyStr × Nat) => b.2 ≤ a.2) [([97], 2), ([98], 1)] ∧
      ((deduplicate_candidates (fun _ _ => 0) (fun _ => 0)
          [([97], 2), ([98], 1)] 95).Sublist [([97], 2), ([98], 1)] ∧
        List.Pairwise (fun (a b : PyStr × Nat) => b.2 ≤ a.2)
          (deduplicate_candidates (fun _ _ => 0) (fun _ => 0) [([97], 2), ([98], 1)] 95)) :=
  ⟨by decide, c10_dedupe_subsequence (fun _ _ => 0) (fun _ => 0)
    [([97], 2), ([98], 1)] 95 (by decide)⟩

/-!
Relational store and the Candidate Filter (`build_candidate_urls`,
query_top_k.py:81).  The SQL built by the function is interpreted over an
in-memory model of the SQLite store: one list per table.  SQLite semantics
used: inner JOIN on `recipe_tags` and `recipe_ingredients`, GROUP BY with
COUNT(DISTINCT ...) ignoring NULLs, HAVING as a post-aggregation filter,
`LIKE '%kw%' COLLATE NOCASE` as ASCII-case-insensitive substring containment
(no wildcard characters inside the keyword), ORDER BY matched_count DESC and
LIMIT.  Value ordering for ORDER BY follows SQLite storage classes:
NULL < numeric < text, text compared under the BINARY collation.
-/

/-- SQLite storage value for dynamically typed columns (`step_number`). -/
inductive SqlVal where
  | null : SqlVal
  | int : Int → SqlVal
  | text : PyStr → SqlVal
deriving DecidableEq

/-- Lexicographic (BINARY-collation) comparison of code-point strings. -/
def lexLeB : PyStr → PyStr → Bool
  | [], _ => true
  | _ :: _, [] => false
  | a :: as, b :: bs => if a < b then true else if b < a then false else lexLeB as bs

/-- SQLite ORDER BY comparison on storage values: NULL sorts before any other
value, numeric values sort before text, text is compared lexicographically. -/
def sqliteValLe : SqlVal → SqlVal → Bool
  | .null, _ => true
  | _, .null => false
  | .int i, .int j => i ≤ j
  | .int _, .text _ => true
  | .text _, .int _ => false
  | .text s, .text t => lexLeB s t

structure SchemaRow where
  url : PyStr
  title : Option PyStr
  cook_time : Option PyStr
  yields : Option PyStr
  description : Option PyStr
  why_this_works : Option PyStr
  headnote : Option PyStr
  equipment : Option PyStr
  processed_at : Option PyStr
  course : Option PyStr
  main_ingredient : Option PyStr
  source_domain : Option PyStr
deriving DecidableEq

structure TagRow where
  url : PyStr
  category : PyStr
  title : PyStr
deriving DecidableEq

structure IngRow where
  url : PyStr
  ingredient : PyStr
  normalized_ingredient : Option PyStr
  canonical_ingredient : Option PyStr
deriving DecidableEq

structure InstrRow where
  url : PyStr
  step_number : SqlVal
  instruction : PyStr
deriving DecidableEq

structure SimpRow where
  url : PyStr
  simplified_data : Option PyStr
deriving DecidableEq

/-- The read-only relational recipe store. -/
structure Store where
  schema : List SchemaRow
  tags : List TagRow
  ings : List IngRow
  instrs : List InstrRow
  simps : List SimpRow
deriving DecidableEq

def startsWithL : PyStr → PyStr → Bool
  | [], _ => true
  | _ :: _, [] => false
  | p :: ps, a :: rest => decide (p = a) && startsWithL ps rest

/-- Substring occurrence: does the pattern occur contiguously in the
haystack. -/
def containsSubstr : PyStr → PyStr → Bool
  | [], pat => pat.isEmpty
  | a :: t, pat => startsWithL pat (a :: t) || containsSubstr t pat

/-- SQLite `col LIKE '%' || kw || '%' COLLATE NOCASE` on a nullable text
column, for keywords without wildcard characters: ASCII-case-insensitive
substring containment; NULL never matches. -/
def likeCI (col : Option PyStr) (kw : PyStr) : Bool :=
  match col with
  | none => false
  | some s => containsSubstr (pyLower s) (pyLower kw)

/-- The code point string "AND" (the tag_filter_mode compared against). -/
def andString : PyStr := [65, 78, 68]

/-- Row-level tag-inclusion condition: the OR of
`(t.category = ? AND t.title IN (...))` over the categories with a non-empty
chosen list; absent (every row passes) when no category is active. -/
def tagCondB (tfs : List (PyStr × List PyStr)) (t : TagRow) : Bool :=
  let active := tfs.filter (fun c => !c.2.isEmpty)
  if active.isEmpty then true
  else active.any (fun c => decide (t.category = c.1) && c.2.contains t.title)

/-- Row-level exact-ingredient condition `i.normalized_ingredient IN (...)`;
absent when the user supplied no ingredients; NULL is never IN a list. -/
def ingCondB (user : List PyStr) (i : IngRow) : Bool :=
  if user.isEmpty then true
  else
    match i.normalized_ingredient with
    | none => false
    | some v => user.contains v

def sourceCondB (sources : List PyStr) (s : SchemaRow) : Bool :=
  if sources.isEmpty then true
  else
    match s.source_domain with
    | none => false
    | some d => sources.contains d

def excludedTagsCondB (store : Store) (exs : List (PyStr × List PyStr))
    (s : SchemaRow) : Bool :=
  (exs.filter (fun c => !c.2.isEmpty)).all (fun c =>
    !(store.tags.any (fun te =>
      decide (te.url = s.url) && decide (te.category = c.1) && c.2.contains te.title)))

def forbiddenCondB (store : Store) (forb : List PyStr) (s : SchemaRow) : Bool :=
  if forb.isEmpty then true
  else !(store.ings.any (fun fi =>
    decide (fi.url = s.url) && forb.any (fun f => likeCI fi.normalized_ingredient f)))

def mustUseCondB (store : Store) (musts : List PyStr) (s : SchemaRow) : Bool :=
  musts.all (fun m => store.ings.any (fun mu =>
    decide (mu.url = s.url) && likeCI mu.normalized_ingredient m))

/-- One include-keyword hit: title, description, or some ingredient of the
recipe contains the keyword case-insensitively. -/
def kwHit (store : Store) (s : SchemaRow) (kw : PyStr) : Bool :=
  likeCI s.title kw || likeCI s.description kw ||
    store.ings.any (fun i2 => decide (i2.url = s.url) && likeCI i2.normalized_ingredient kw)

/-- All schema-row-level WHERE conditions of the generated SQL. -/
def sCondB (store : Store) (sources : List PyStr) (exs : List (PyStr × List PyStr))
    (forb musts kwi kwe : List PyStr) (s : SchemaRow) : Bool :=
  sourceCondB sources s && excludedTagsCondB store exs s &&
    forbiddenCondB store forb s && mustUseCondB store musts s &&
    kwi.all (kwHit store s) && kwe.all (fun kw => !(kwHit store s kw))

/-- COALESCE(st.step_count, 0): number of instruction rows of a url. -/
def stepCount (store : Store) (u : PyStr) : Nat :=
  (store.instrs.filter (fun r => decide (r.url = u))).length

/-- The aggregated output row for one recipe of the generated
`SELECT ... GROUP BY s.url ... HAVING ...` query: `none` when the recipe has
no joined (tag, ingredient) row passing the WHERE clause or fails HAVING. -/
def groupRow (store : Store) (tfs exs : List (PyStr × List PyStr))
    (user : List PyStr) (min_ing : Nat) (forb musts : List PyStr) (mode : PyStr)
    (max_steps : Nat) (kwi kwe sources : List PyStr) (s : SchemaRow) :
    Option (PyStr × Nat) :=
  let ts : List TagRow :=
    store.tags.filter (fun t => decide (t.url = s.url) && tagCondB tfs t)
  let is2 : List IngRow :=
    store.ings.filter (fun i => decide (i.url = s.url) && ingCondB user i)
  if sCondB store sources exs forb musts kwi kwe s && !ts.isEmpty && !is2.isEmpty then
    let matched_count : Nat :=
      ((is2.filterMap (fun i => i.normalized_ingredient)).dedup).length
    let matched_categories : Nat := ((ts.map (fun t => t.category)).dedup).length
    let nactive : Nat := (tfs.filter (fun c => !c.2.isEmpty)).length
    let havingOk : Bool :=
      (if 0 < nactive then
        (if mode = andString then decide (matched_categories = nactive)
         else decide (1 ≤ matched_categories))
       else true) &&
      (if 0 < min_ing then decide (min_ing ≤ matched_count) else true) &&
      (if 0 < max_steps then decide (stepCount store s.url ≤ max_steps) else true)
    if havingOk then some (s.url, matched_count) else none
  else none

/-- Embedding of `build_candidate_urls` (query_top_k.py:81): evaluate the
generated SQL over the store — per-recipe aggregation, ORDER BY
matched_count DESC, and LIMIT (applied only when `limit > 0`). -/
def build_candidate_urls (store : Store) (tag_filters excluded_tags : List (PyStr × List PyStr))
    (user_ingredients : List PyStr) (min_ing_matches : Nat)
    (forbidden_ingredients must_use : List PyStr) (tag_filter_mode : PyStr)
    (max_steps : Nat) (keywords_to_include keywords_to_exclude sources : List PyStr)
    (limit : Nat) : List (PyStr × Nat) :=
  let rows := store.schema.filterMap
    (groupRow store tag_filters excluded_tags user_ingredients min_ing_matches
      forbidden_ingredients must_use tag_filter_mode max_steps
      keywords_to_include keywords_to_exclude sources)
  let sorted := List.insertionSort (fun a b => b.2 ≤ a.2) rows
  if 0 < limit then sorted.take limit else sorted

theorem filter_not_empty_iff {α : Type} (l : List α) (p : α → Bool) :
    (!(l.filter p).isEmpty) = true ↔ ∃ a ∈ l, p a = true := by
  rw [Bool.not_eq_true', List.isEmpty_eq_false_iff_exists_mem]
  constructor
  · rintro ⟨x, hx⟩
    exact ⟨x, (List.mem_filter.mp hx).1, (List.mem_filter.mp hx).2⟩
  · rintro ⟨x, hx, hpx⟩
    exact ⟨x, List.mem_filter.mpr ⟨hx, hpx⟩⟩

theorem groupRow_char (store : Store) (tfs exs : List (PyStr × List PyStr))
    (forb musts : List PyStr) (mode : PyStr) (max_steps : Nat)
    (kwi kwe sources : List PyStr)
    (htf : ∀ c ∈ tfs, c.2 = []) (s : SchemaRow) (u : PyStr) (m : Nat) :
    groupRow store tfs exs [] 0 forb musts mode max_steps kwi kwe sources s =
        some (u, m) ↔
      (u = s.url ∧ sCondB store sources exs forb musts kwi kwe s = true ∧
        (∃ t ∈ store.tags, t.url = s.url) ∧ (∃ i ∈ store.ings, i.url = s.url) ∧
        (0 < max_steps → stepCount store s.url ≤ max_steps) ∧
        m = (((store.ings.filter (fun i => decide (i.url = s.url))).filterMap
          (fun i => i.normalized_ingredient)).dedup).length) := by
  have hactive : tfs.filter (fun c => !c.2.isEmpty) = [] := by
    rw [List.filter_eq_nil_iff]
    intro c hc
    simp [htf c hc]
  have htag : ∀ t, tagCondB tfs t = true := by
    intro t
    unfold tagCondB
    simp [hactive]
  have hing : ∀ i, ingCondB [] i = true := fun _ => rfl
  unfold groupRow
  simp only [htag, hing, Bool.and_true, hactive, List.length_nil, Nat.lt_irrefl,
    if_false, Bool.true_and]
  by_cases hA : (sCondB store sources exs forb musts kwi kwe s &&
      !(store.tags.filter (fun t => decide (t.url = s.url))).isEmpty &&
      !(store.ings.filter (fun i => decide (i.url = s.url))).isEmpty) = true
  · rw [if_pos hA]
    rcases Bool.and_eq_true_iff.mp hA with ⟨hA1, hIs⟩
    rcases Bool.and_eq_true_iff.mp hA1 with ⟨hSc, hTs⟩
    have hexT : ∃ t ∈ store.tags, t.url = s.url := by
      rcases (filter_not_empty_iff _ _).mp hTs with ⟨t, ht, hpt⟩
      exact ⟨t, ht, of_decide_eq_true hpt⟩
    have hexI : ∃ i ∈ store.ings, i.url = s.url := by
      rcases (filter_not_empty_iff _ _).mp hIs with ⟨i, hi, hpi⟩
      exact ⟨i, hi, of_decide_eq_true hpi⟩
    by_cases hB : (if 0 < max_steps then decide (stepCount store s.url ≤ max_steps)
        else true) = true
    · rw [if_pos (by simpa using hB)]
      have hsteps : 0 < max_steps → stepCount store s.url ≤ max_steps := by
        intro hms
        rw [if_pos hms] at hB
        exact of_decide_eq_true hB
      constructor
      · intro hsome
        have := Option.some.injEq _ _ ▸ hsome
        rw [Option.some.injEq, Prod.mk.injEq] at hsome
        exact ⟨hsome.1.symm, hSc, hexT, hexI, hsteps, hsome.2.symm⟩
      · rintro ⟨hu, _, _, _, _, hm⟩
        rw [Option.some.injEq, Prod.mk.injEq]
        exact ⟨hu.symm, hm.symm⟩
    · rw [if_neg (by simpa using hB)]
      constructor
      · intro hnone
        exact absurd hnone (by simp)
      · rintro ⟨_, _, _, _, hsteps, _⟩
        exfalso
        apply hB
        by_cases hms : 0 < max_steps
        · rw [if_pos hms]
          exact decide_eq_true (hsteps hms)
        · rw [if_neg hms]
  · rw [if_neg hA]
    constructor
    · intro hnone
      exact absurd hnone (by simp)
    · rintro ⟨_, hSc, hexT, hexI, _, _⟩
      exfalso
      apply hA
      have hTs : (!(store.tags.filter (fun t => decide (t.url = s.url))).isEmpty) = true := by
        rcases hexT with ⟨t, ht, hu⟩
        exact (filter_not_empty_iff _ _).mpr ⟨t, ht, decide_eq_true hu⟩
      have hIs : (!(store.ings.filter (fun i => decide (i.url = s.url))).isEmpty) = true := by
        rcases hexI with ⟨i, hi, hu⟩
        exact (filter_not_empty_iff _ _).mpr ⟨i, hi, decide_eq_true hu⟩
      rw [hSc, hTs, hIs]
      rfl

/-- C4 (amended): called with empty `user_ingredients`, all-empty
`tag_filters` and `min_ing_matches = 0`, the candidate filter is a total
function (it cannot raise) and — whenever the row cap is inactive or large
enough — returns exactly the recipes that have at least one tag row AND at
least one ingredient row (a consequence of the inner JOINs) and that satisfy
the remaining constraints (sources, excluded tags, forbidden / must-use
ingredients, keywords, step ceiling), each paired with its count of distinct
non-null normalized ingredients; the result is an empty list, never an
absent value, when no recipe matches. -/
theorem c4_empty_constraints_membership (store : Store)
    (tfs exs : List (PyStr × List PyStr)) (forb musts : List PyStr) (mode : PyStr)
    (max_steps : Nat) (kwi kwe sources : List PyStr) (limit : Nat)
    (htf : ∀ c ∈ tfs, c.2 = [])
    (hlim : limit = 0 ∨ store.schema.length ≤ limit) :
    ∀ u m, (u, m) ∈ build_candidate_urls store tfs exs [] 0 forb musts mode
        max_steps kwi kwe sources limit ↔
      ∃ s ∈ store.schema, u = s.url ∧
        sCondB store sources exs forb musts kwi kwe s = true ∧
        (∃ t ∈ store.tags, t.url = s.url) ∧ (∃ i ∈ store.ings, i.url = s.url) ∧
        (0 < max_steps → stepCount store s.url ≤ max_steps) ∧
        m = (((store.ings.filter (fun i => decide (i.url = s.url))).filterMap
          (fun i => i.normalized_ingredient)).dedup).length := by
  intro u m
  unfold build_candidate_urls
  have hperm := List.perm_insertionSort
    (fun (a b : PyStr × Nat) => b.2 ≤ a.2)
    (store.schema.filterMap (groupRow store tfs exs [] 0 forb musts mode
      max_steps kwi kwe sources))
  have hbuild : (if 0 < limit then
      (List.insertionSort (fun (a b : PyStr × Nat) => b.2 ≤ a.2)
        (store.schema.filterMap (groupRow store tfs exs [] 0 forb musts mode
          max_steps kwi kwe sources))).take limit
    else List.insertionSort (fun (a b : PyStr × Nat) => b.2 ≤ a.2)
      (store.schema.filterMap (groupRow store tfs exs [] 0 forb musts mode
        max_steps kwi kwe sources))) =
      List.insertionSort (fun (a b : PyStr × Nat) => b.2 ≤ a.2)
        (store.schema.filterMap (groupRow store tfs exs [] 0 forb musts mode
          max_steps kwi kwe sources)) := by
    rcases hlim with h0 | hle
    · rw [h0]
      simp
    · by_cases hl : 0 < limit
      · rw [if_pos hl]
        apply List.take_of_length_le
        rw [hperm.length_eq]
        exact le_trans (List.length_filterMap_le _ _) hle
      · rw [if_neg hl]
  rw [hbuild, hperm.mem_iff, List.mem_filterMap]
  constructor
  · rintro ⟨s, hsmem, hsome⟩
    exact ⟨s, hsmem, (groupRow_char store tfs exs forb musts mode max_steps
      kwi kwe sources htf s u m).mp hsome⟩
  · rintro ⟨s, hsmem, hchar⟩
    exact ⟨s, hsmem, (groupRow_char store tfs exs forb musts mode max_steps
      kwi kwe sources htf s u m).mpr hchar⟩

/-- Schema row of the C4 counterexample store: url "u", all other columns
NULL. -/
def c4SchemaRow : SchemaRow :=
  ⟨[117], none, none, none, none, none, none, none, none, none, none, none⟩

/-- Ingredient row of the C4 counterexample store: url "u", ingredient "x". -/
def c4IngRow : IngRow := ⟨[117], [120], some [120], none⟩

/-- C4 counterexample store: one recipe with an ingredient but no tag rows. -/
def c4Store : Store := ⟨[c4SchemaRow], [], [c4IngRow], [], []⟩

/-- C4 store variant with a tag row, used by the witness. -/
def c4StoreTagged : Store := ⟨[c4SchemaRow], [⟨[117], [99], [116]⟩], [c4IngRow], [], []⟩

/-- C4 (counterexample): with empty user_ingredients, empty tag_filters,
min_ing_matches = 0 and no other constraint at all, the claim says every
recipe in the store is returned; but a recipe that has an ingredient and
satisfies every row-level condition, yet has no tag rows, is silently dropped
by the inner JOIN on recipe_tags — the filter returns the empty list. -/
theorem c4_tagless_recipe_dropped :
    build_candidate_urls c4Store [] [] [] 0 [] [] andString 0 [] [] [] 3000 = [] ∧
      c4Store.schema.map (fun s => s.url) = [[117]] ∧
      sCondB c4Store [] [] [] [] [] [] c4SchemaRow = true :=
  ⟨by decide, by decide, by decide⟩

/-- C4 witness: the amended membership characterization applied to a concrete
store whose only recipe has both a tag row and an ingredient row. -/
theorem c4_empty_constraints_membership_witness :
    ((3000 : Nat) = 0 ∨ c4StoreTagged.schema.length ≤ 3000) ∧
      ∀ u m, (u, m) ∈ build_candidate_urls c4StoreTagged [] [] [] 0 [] [] andString
          0 [] [] [] 3000 ↔
        ∃ s ∈ c4StoreTagged.schema, u = s.url ∧
          sCondB c4StoreTagged [] [] [] [] [] [] s = true ∧
          (∃ t ∈ c4StoreTagged.tags, t.url = s.url) ∧
          (∃ i ∈ c4StoreTagged.ings, i.url = s.url) ∧
          ((0 : Nat) < 0 → stepCount c4StoreTagged s.url ≤ 0) ∧
          m = (((c4StoreTagged.ings.filter (fun i => decide (i.url = s.url))).filterMap
            (fun i => i.normalized_ingredient)).dedup).length :=
  ⟨Or.inr (by decide),
    c4_empty_constraints_membership c4StoreTagged [] [] [] [] andString 0 [] [] [] 3000
      (by simp) (Or.inr (by decide))⟩

/-!
Recipe Loader (`load_bulk_recipes`, query_top_k.py:289).  The four batched
queries are modelled per record: each hydrated Recipe is assembled from the
rows of its url.  `json.loads` is an environment parameter returning `none`
on malformed input (the Python code turns the raised exception into an empty
dict and a log line); the parsed-JSON type is a type parameter `J` with a
distinguished empty structure. -/

structure LoadEnv (J : Type) where
  emptyJ : J
  jsonParse : PyStr → Option J

structure IngEntry where
  ingredient : PyStr
  normalized_ingredient : PyStr
  canonical_ingredient : PyStr
deriving DecidableEq

structure InstrEntry where
  step_number : SqlVal
  instruction : PyStr
deriving DecidableEq

structure RecipeRec (J : Type) where
  url : PyStr
  title : PyStr
  cook_time : PyStr
  yields : PyStr
  description : PyStr
  why_this_works : PyStr
  headnote : PyStr
  equipment : PyStr
  processed_at : Option PyStr
  course : Option PyStr
  main_ingredient : Option PyStr
  ingredients : List IngEntry
  instructions : List InstrEntry
  simplified_data : J
deriving DecidableEq

/-- Assemble the hydrated record of one schema row, from the rows matching
its url: `column or ""` defaults for nullable text columns, ingredient rows
in store order, instruction rows ordered by `ORDER BY step_number` under
SQLite value ordering, and the simplified payload parsed with fallback to the
empty structure on NULL, empty string, or parse failure. -/
def assembleRecipe {J : Type} (env : LoadEnv J) (store : Store) (s : SchemaRow) :
    RecipeRec J :=
  { url := s.url
    title := s.title.getD []
    cook_time := s.cook_time.getD []
    yields := s.yields.getD []
    description := s.description.getD []
    why_this_works := s.why_this_works.getD []
    headnote := s.headnote.getD []
    equipment := s.equipment.getD []
    processed_at := s.processed_at
    course := s.course
    main_ingredient := s.main_ingredient
    ingredients := (store.ings.filter (fun i => decide (i.url = s.url))).map
      (fun i => ⟨i.ingredient, i.normalized_ingredient.getD [],
        i.canonical_ingredient.getD []⟩)
    instructions := (List.insertionSort
        (fun a b => sqliteValLe a.step_number b.step_number = true)
        (store.instrs.filter (fun r => decide (r.url = s.url)))).map
      (fun r => ⟨r.step_number, r.instruction⟩)
    simplified_data := (store.simps.filter (fun r => decide (r.url = s.url))).foldl
      (fun _ row =>
        match row.simplified_data with
        | none => env.emptyJ
        | some raw =>
          if raw.isEmpty then env.emptyJ else (env.jsonParse raw).getD env.emptyJ)
      env.emptyJ }

/-- Embedding of `load_bulk_recipes` (query_top_k.py:289): the result dict as
an association list keyed by url, in `ORDER BY url` order; one entry per
schema row whose url is among the candidates. -/
def load_bulk_recipes {J : Type} (env : LoadEnv J) (store : Store)
    (candidate_urls : List PyStr) : List (PyStr × RecipeRec J) :=
  (List.insertionSort (fun a b => lexLeB a.url b.url = true)
      (store.schema.filter (fun s => candidate_urls.contains s.url))).map
    (fun s => (s.url, assembleRecipe env store s))

/-- Python dict lookup on the association-list model (keys are unique in the
intended stores; the first match is taken). -/
def dictGet {α : Type} (d : List (PyStr × α)) (k : PyStr) : Option α :=
  (d.find? (fun e => decide (e.1 = k))).map (fun e => e.2)

theorem lexLeB_total : ∀ (a b : PyStr), lexLeB a b = true ∨ lexLeB b a = true
  | [], _ => Or.inl rfl
  | _ :: _, [] => Or.inr rfl
  | a :: as, b :: bs => by
    rcases Nat.lt_trichotomy a b with h | h | h
    · left
      unfold lexLeB
      rw [if_pos h]
    · subst h
      rcases lexLeB_total as bs with hr | hr
      · left
        unfold lexLeB
        rw [if_neg (Nat.lt_irrefl a), if_neg (Nat.lt_irrefl a)]
        exact hr
      · right
        unfold lexLeB
        rw [if_neg (Nat.lt_irrefl a), if_neg (Nat.lt_irrefl a)]
        exact hr
    · right
      unfold lexLeB
      rw [if_pos h]

theorem lexLeB_trans :
    ∀ (a b c : PyStr), lexLeB a b = true → lexLeB b c = true → lexLeB a c = true
  | [], _, _ => fun _ _ => rfl
  | _ :: _, [], _ => fun h _ => absurd h (by simp [lexLeB])
  | _ :: _, _ :: _, [] => fun _ h2 => absurd h2 (by simp [lexLeB])
  | a :: as, b :: bs, c :: cs => by
    intro h1 h2
    unfold lexLeB at h1 h2 ⊢
    by_cases hab : a < b
    · by_cases hbc : b < c
      · rw [if_pos (Nat.lt_trans hab hbc)]
      · by_cases hcb : c < b
        · rw [if_neg hbc, if_pos hcb] at h2
          exact absurd h2 (by simp)
        · have hbceq : b = c := Nat.le_antisymm (Nat.not_lt.mp hcb) (Nat.not_lt.mp hbc)
          rw [if_pos (hbceq ▸ hab)]
    · by_cases hba : b < a
      · rw [if_neg hab, if_pos hba] at h1
        exact absurd h1 (by simp)
      · have habeq : a = b := Nat.le_antisymm (Nat.not_lt.mp hba) (Nat.not_lt.mp hab)
        subst habeq
        rw [if_neg (by omega), if_neg (by omega)] at h1
        by_cases hac : a < c
        · rw [if_pos hac]
        · by_cases hca : c < a
          · rw [if_neg hac, if_pos hca] at h2
            exact absurd h2 (by simp)
          · rw [if_neg hac, if_neg hca] at h2 ⊢
            exact lexLeB_trans as bs cs h1 h2

theorem sqliteValLe_total (a b : SqlVal) :
    sqliteValLe a b = true ∨ sqliteValLe b a = true := by
  cases a with
  | null => exact Or.inl (by cases b <;> rfl)
  | int i =>
    cases b with
    | null => exact Or.inr rfl
    | int j =>
      rcases Int.le_total i j with h | h
      · exact Or.inl (by simp [sqliteValLe, h])
      · exact Or.inr (by simp [sqliteValLe, h])
    | text t => exact Or.inl rfl
  | text s =>
    cases b with
    | null => exact Or.inr rfl
    | int j => exact Or.inr rfl
    | text t => exact lexLeB_total s t

theorem sqliteValLe_trans (a b c : SqlVal) (h1 : sqliteValLe a b = true)
    (h2 : sqliteValLe b c = true) : sqliteValLe a c = true := by
  cases a with
  | null => cases c <;> rfl
  | int i =>
    cases b with
    | null => exact absurd h1 (by simp [sqliteValLe])
    | int j =>
      cases c with
      | null => exact absurd h2 (by simp [sqliteValLe])
      | int k =>
        simp only [sqliteValLe, decide_eq_true_eq] at h1 h2 ⊢
        omega
      | text t => rfl
    | text t =>
      cases c with
      | null => exact absurd h2 (by simp [sqliteValLe])
      | int k => exact absurd h2 (by simp [sqliteValLe])
      | text t2 => rfl
  | text s =>
    cases b with
    | null => exact absurd h1 (by simp [sqliteValLe])
    | int j => exact absurd h1 (by simp [sqliteValLe])
    | text t =>
      cases c with
      | null => exact absurd h2 (by simp [sqliteValLe])
      | int k => exact absurd h2 (by simp [sqliteValLe])
      | text t2 => exact lexLeB_trans s t t2 h1 h2

theorem dictGet_load_eq_some {J : Type} (env : LoadEnv J) (store : Store)
    (urls : List PyStr) (u : PyStr) (rec : RecipeRec J)
    (h : dictGet (load_bulk_recipes env store urls) u = some rec) :
    ∃ s ∈ store.schema, s.url = u ∧ rec = assembleRecipe env store s := by
  unfold dictGet at h
  cases hf : (load_bulk_recipes env store urls).find? (fun e => decide (e.1 = u)) with
  | none => rw [hf] at h; simp at h
  | some e =>
    rw [hf] at h
    simp only [Option.map, Option.some.injEq] at h
    have hp := List.find?_some hf
    have hm := List.mem_of_find?_eq_some hf
    unfold load_bulk_recipes at hm
    rcases List.mem_map.mp hm with ⟨s, hsrt, hfs⟩
    have hsf : s ∈ store.schema.filter (fun s => urls.contains s.url) :=
      ((List.perm_insertionSort _ _).mem_iff).mp hsrt
    refine ⟨s, (List.mem_filter.mp hsf).1, ?_, ?_⟩
    · rw [← hfs] at hp
      exact of_decide_eq_true hp
    · rw [← hfs] at h
      exact h.symm

theorem foldl_replace_const {α β : Type} (g : β → α) (c : α) :
    ∀ (l : List β), (∀ x ∈ l, g x = c) → l.foldl (fun _ x => g x) c = c
  | [], _ => rfl
  | x :: t, h => by
    rw [List.foldl_cons, h x (by simp)]
    exact foldl_replace_const g c t (fun y hy => h y (by simp [hy]))

/-- Helper: dictionary lookup over the per-row mapped list is the lookup of
the underlying row list. -/
theorem dictGet_map_by_url {α : Type} (F : SchemaRow → α) (v : PyStr) :
    ∀ (l : List SchemaRow),
      dictGet (l.map (fun s => (s.url, F s))) v =
        (l.find? (fun s => decide (s.url = v))).map F
  | [] => rfl
  | s :: t => by
    unfold dictGet
    rw [List.map_cons, List.find?_cons, List.find?_cons]
    by_cases hv : s.url = v
    · simp [hv]
    · have hd : (decide (s.url = v)) = false := decide_eq_false hv
      simp only [hd]
      exact dictGet_map_by_url F v t

theorem assembleRecipe_drop_other_simps {J : Type} (env : LoadEnv J)
    (store store2 : Store) (u : PyStr) (s : SchemaRow)
    (htg : store2.tags = store.tags) (hig : store2.ings = store.ings)
    (hin : store2.instrs = store.instrs)
    (hsp : store2.simps = store.simps.filter (fun r => !(decide (r.url = u))))
    (hne : s.url ≠ u) :
    assembleRecipe env store2 s = assembleRecipe env store s := by
  have hfilter : store2.simps.filter (fun r => decide (r.url = s.url)) =
      store.simps.filter (fun r => decide (r.url = s.url)) := by
    rw [hsp, List.filter_comm]
    apply List.filter_eq_self.mpr
    intro r hr
    have hd := (List.mem_filter.mp hr).2
    have : r.url = s.url := of_decide_eq_true hd
    simp [this, hne]
  unfold assembleRecipe
  rw [hig, hin, hfilter]

/-- C8: a missing simplified payload or malformed JSON for one URL never
fails the batch: the loader is a total function, the affected recipe's
simplified field is the empty structure, and every other recipe's record is
exactly the record it would have had without that URL's simplified rows. -/
theorem c8_parse_failure_local {J : Type} (env : LoadEnv J) (store store2 : Store)
    (urls : List PyStr) (u : PyStr)
    (hsc : store2.schema = store.schema) (htg : store2.tags = store.tags)
    (hig : store2.ings = store.ings) (hin : store2.instrs = store.instrs)
    (hsp : store2.simps = store.simps.filter (fun r => !(decide (r.url = u))))
    (hbad : ∀ row ∈ store.simps, row.url = u →
      ∀ raw, row.simplified_data = some raw → raw.isEmpty = false →
        env.jsonParse raw = none) :
    (∀ rec, dictGet (load_bulk_recipes env store urls) u = some rec →
        rec.simplified_data = env.emptyJ) ∧
      (∀ v, v ≠ u →
        dictGet (load_bulk_recipes env store urls) v =
          dictGet (load_bulk_recipes env store2 urls) v) := by
  constructor
  · intro rec hrec
    rcases dictGet_load_eq_some env store urls u rec hrec with ⟨s, hsmem, hsurl, hreceq⟩
    rw [hreceq]
    show (store.simps.filter (fun r => decide (r.url = s.url))).foldl
      (fun _ row =>
        match row.simplified_data with
        | none => env.emptyJ
        | some raw =>
          if raw.isEmpty then env.emptyJ else (env.jsonParse raw).getD env.emptyJ)
      env.emptyJ = env.emptyJ
    apply foldl_replace_const
    intro row hrow
    have hmem : row ∈ store.simps := (List.filter_sublist _).subset hrow
    have hd := (List.mem_filter.mp hrow).2
    have hurl : row.url = u := by
      rw [of_decide_eq_true hd, hsurl]
    cases hsd : row.simplified_data with
    | none => rfl
    | some raw =>
      by_cases hemp : raw.isEmpty = true
      · simp [hemp]
      · have hparse := hbad row hmem hurl raw hsd (Bool.eq_false_iff.mpr hemp)
        simp [hemp, hparse]
  · intro v hv
    unfold load_bulk_recipes
    rw [hsc]
    rw [dictGet_map_by_url (assembleRecipe env store) v,
      dictGet_map_by_url (assembleRecipe env store2) v]
    cases hf : (List.insertionSort (fun a b => lexLeB a.url b.url = true)
        (store.schema.filter (fun s => urls.contains s.url))).find?
        (fun s => decide (s.url = v)) with
    | none => rfl
    | some s =>
      have hpd := List.find?_some hf
      have hp : s.url = v := of_decide_eq_true hpd
      simp [assembleRecipe_drop_other_simps env store store2 u s htg hig hin hsp
        (by rw [hp]; exact hv)]

/-- C8 witness: a two-recipe store where the first recipe's simplified payload
fails to parse.  The store variant without the first recipe's simplified row
yields identical records for the second recipe. -/
def c8Env : LoadEnv Bool := ⟨false, fun _ => none⟩

def c8SchemaU : SchemaRow :=
  ⟨[117], none, none, none, none, none, none, none, none, none, none, none⟩

def c8SchemaV : SchemaRow :=
  ⟨[118], none, none, none, none, none, none, none, none, none, none, none⟩

def c8Store : Store :=
  ⟨[c8SchemaU, c8SchemaV], [], [], [], [⟨[117], some [49]⟩, ⟨[118], some [50]⟩]⟩

def c8Store2 : Store := ⟨[c8SchemaU, c8SchemaV], [], [], [], [⟨[118], some [50]⟩]⟩

theorem c8_parse_failure_local_witness :
    (c8Store2.simps = c8Store.simps.filter (fun r => !(decide (r.url = [117])))) ∧
      ((∀ rec, dictGet (load_bulk_recipes c8Env c8Store [[117], [118]]) [117] =
            some rec → rec.simplified_data = c8Env.emptyJ) ∧
        (∀ v, v ≠ [117] →
          dictGet (load_bulk_recipes c8Env c8Store [[117], [118]]) v =
            dictGet (load_bulk_recipes c8Env c8Store2 [[117], [118]]) v)) :=
  ⟨by decide,
    c8_parse_failure_local c8Env c8Store c8Store2 [[117], [118]] [117]
      rfl rfl rfl rfl (by decide) (fun _ _ _ _ _ _ => rfl)⟩

/-- Modelled from the spec: the instruction ordering asserted by the claim —
numeric step numbers ascending, with non-numeric or missing step numbers
sorting last. -/
def claimedStepLe : SqlVal → SqlVal → Bool
  | .int i, .int j => decide (i ≤ j)
  | .int _, _ => true
  | _, .int _ => false
  | _, _ => true

def c9Env : LoadEnv Bool := ⟨false, fun _ => none⟩

def c9SchemaRow : SchemaRow :=
  ⟨[117], none, none, none, none, none, none, none, none, none, none, none⟩

/-- C9 counterexample store: one recipe with a numbered step and a step whose
step_number is NULL. -/
def c9Store : Store :=
  ⟨[c9SchemaRow], [], [], [⟨[117], SqlVal.int 1, [121]⟩, ⟨[117], SqlVal.null, [120]⟩], []⟩

/-- C9 (counterexample): the loader orders instruction rows by
`ORDER BY step_number`, and SQLite sorts NULL before every other value — so a
missing step number comes FIRST, not last: the hydrated step-number sequence
is [NULL, 1], which violates the claimed missing-sorts-last order. -/
theorem c9_null_step_sorts_first :
    (dictGet (load_bulk_recipes c9Env c9Store [[117]]) [117]).map
        (fun rec => rec.instructions.map (fun e => e.step_number)) =
      some [SqlVal.null, SqlVal.int 1] ∧
      ¬ List.Chain' (fun a b => claimedStepLe a b = true)
        [SqlVal.null, SqlVal.int 1] :=
  ⟨by decide, by rw [List.chain'_pair]; decide⟩

/-- C9 (amended): for every recipe hydrated by the loader, the instruction
steps are ordered by SQLite value ordering of their step number: missing
(NULL) step numbers first, then numeric step numbers ascending, then
non-numeric (text) step numbers last, compared lexicographically. -/
theorem c9_steps_sorted_sqlite {J : Type} (env : LoadEnv J) (store : Store)
    (urls : List PyStr) (u : PyStr) (rec : RecipeRec J)
    (h : dictGet (load_bulk_recipes env store urls) u = some rec) :
    List.Chain' (fun a b => sqliteValLe a.step_number b.step_number = true)
      rec.instructions := by
  rcases dictGet_load_eq_some env store urls u rec h with ⟨s, _, _, hreceq⟩
  rw [hreceq]
  show List.Chain' (fun a b => sqliteValLe a.step_number b.step_number = true)
    ((List.insertionSort (fun a b => sqliteValLe a.step_number b.step_number = true)
      (store.instrs.filter (fun r => decide (r.url = s.url)))).map
      (fun r => (⟨r.step_number, r.instruction⟩ : InstrEntry)))
  haveI : IsTotal InstrRow (fun a b => sqliteValLe a.step_number b.step_number = true) :=
    ⟨fun a b => sqliteValLe_total a.step_number b.step_number⟩
  haveI : IsTrans InstrRow (fun a b => sqliteValLe a.step_number b.step_number = true) :=
    ⟨fun a b c => sqliteValLe_trans a.step_number b.step_number c.step_number⟩
  have hsorted := List.sorted_insertionSort
    (fun (a b : InstrRow) => sqliteValLe a.step_number b.step_number = true)
    (store.instrs.filter (fun r => decide (r.url = s.url)))
  have hpw : List.Pairwise
      (fun (a b : InstrRow) => sqliteValLe a.step_number b.step_number = true)
      (List.insertionSort (fun a b => sqliteValLe a.step_number b.step_number = true)
        (store.instrs.filter (fun r => decide (r.url = s.url)))) := hsorted
  exact (List.Pairwise.map
    (fun r : InstrRow => (⟨r.step_number, r.instruction⟩ : InstrEntry))
    (fun a b hab => hab) hpw).chain'

/-- C9 witness: the amended ordering theorem applied to the concrete store. -/
theorem c9_steps_sorted_sqlite_witness :
    dictGet (load_bulk_recipes c9Env c9Store [[117]]) [117] =
        some (assembleRecipe c9Env c9Store c9SchemaRow) ∧
      List.Chain' (fun a b => sqliteValLe a.step_number b.step_number = true)
        (assembleRecipe c9Env c9Store c9SchemaRow).instructions :=
  ⟨by decide, c9_steps_sorted_sqlite c9Env c9Store [[117]] [117] _ (by decide)⟩

/-!
Coverage Scorer (`bulk_compute_coverage`, query_top_k.py:423) and the
canonicalizer (`get_canonical_ingredient`, nlp_utils.py:35).  The spacy FOOD
entity extractor, rapidfuzz `token_set_ratio`, and scipy
`linear_sum_assignment` are environment parameters.  The code's global
flattening of all recipes' ingredient lists with per-recipe offset slices is
an elementwise-independent batching of `cdist`; the embedding computes the
identical per-recipe similarity sub-matrix directly. -/

/-- Model of `str.split()` (split on whitespace runs, no empty parts); the
first argument is the remaining input, the second the current word reversed. -/
def pySplitGo : PyStr → PyStr → List PyStr
  | [], acc => if acc.isEmpty then [] else [acc.reverse]
  | c :: rest, acc =>
    if isPySpace c then
      if acc.isEmpty then pySplitGo rest [] else acc.reverse :: pySplitGo rest []
    else pySplitGo rest (c :: acc)

def pySplit (s : PyStr) : List PyStr := pySplitGo s []

/-- Embedding of `extract_ingredient_entities` (nlp_utils.py:21): the FOOD
entities (already lowercased and stripped, as the code does to `ent.text`)
come from the environment; when they do not account for every whitespace
token of the input, fall back to the lowercased stripped whole phrase. -/
def extract_ingredient_entities (ents : PyStr → List PyStr) (text : PyStr) :
    List PyStr :=
  let foods := ents text
  if !foods.isEmpty then
    let token_count := (pySplit text).length
    let ent_count := (foods.map (fun f => (pySplit f).length)).sum
    if ent_count ≠ token_count then [pyStrip (pyLower text)] else foods
  else [pyStrip (pyLower text)]

/-- Embedding of `get_canonical_ingredient` (nlp_utils.py:35). -/
def get_canonical_ingredient (ents : PyStr → List PyStr) (text : PyStr) : PyStr :=
  let fe := extract_ingredient_entities ents text
  if !fe.isEmpty then List.intercalate [32] fe else pyStrip (pyLower text)

/-- Environment of the coverage scorer: `simTSR` models
`rapidfuzz.fuzz.token_set_ratio` (0-100), `lsa` models
`scipy.optimize.linear_sum_assignment` on a square cost matrix of the given
dimension (returning the zipped row/column index pairs), `ents` the spacy
FOOD-entity extractor. -/
structure CovEnv where
  simTSR : PyStr → PyStr → Rat
  lsa : (Nat → Nat → Rat) → Nat → List (Nat × Nat)
  ents : PyStr → List PyStr

def getStr (l : List PyStr) (i : Nat) : PyStr := l.getD i []

/-- The canonical ingredient phrases of a recipe, `.lower().strip()`-ed. -/
def canIngs {J : Type} (rdata : RecipeRec J) : List PyStr :=
  rdata.ingredients.map (fun ing => pyStrip (pyLower ing.canonical_ingredient))

/-- The raw ingredient phrases of a recipe, `.lower().strip()`-ed. -/
def rawIngs {J : Type} (rdata : RecipeRec J) : List PyStr :=
  rdata.ingredients.map (fun ing => pyStrip (pyLower ing.ingredient))

/-- One entry of the per-recipe slice of the blended similarity matrix:
`alpha * canonical_sim + (1 - alpha) * raw_sim`, both scaled to [0,1]. -/
def simSubF {J : Type} (env : CovEnv) (user_ingredients user_norm : List PyStr)
    (rdata : RecipeRec J) (alpha : Rat) : Nat → Nat → Rat := fun i j =>
  alpha * (env.simTSR (getStr user_norm i) (getStr (canIngs rdata) j) / 100) +
    (1 - alpha) * (env.simTSR (getStr user_ingredients i) (getStr (rawIngs rdata) j) / 100)

/-- Best similarity of recipe-ingredient j against any user term
(`np.max(sim_sub, axis=0)`). -/
def recipeBestF {J : Type} (env : CovEnv) (user_ingredients user_norm : List PyStr)
    (rdata : RecipeRec J) (alpha : Rat) (j : Nat) : Rat :=
  (((List.range user_ingredients.length).map
    (fun i => simSubF env user_ingredients user_norm rdata alpha i j)).max?).getD 0

/-- Best similarity of user term i against any recipe ingredient
(`np.max(sim_sub, axis=1)`). -/
def userBestF {J : Type} (env : CovEnv) (user_ingredients user_norm : List PyStr)
    (rdata : RecipeRec J) (alpha : Rat) (i : Nat) : Rat :=
  (((List.range (canIngs rdata).length).map
    (fun j => simSubF env user_ingredients user_norm rdata alpha i j)).max?).getD 0

/-- Quick recipe coverage: fraction of recipe ingredients whose best
similarity reaches `min_pair_sim`. -/
def quickFracRecipe {J : Type} (env : CovEnv) (user_ingredients user_norm : List PyStr)
    (rdata : RecipeRec J) (min_pair_sim alpha : Rat) : Rat :=
  (((List.range (canIngs rdata).length).filter
      (fun j => min_pair_sim ≤ recipeBestF env user_ingredients user_norm rdata alpha j)).length : Rat) /
    (canIngs rdata).length

/-- Quick user coverage: fraction of user terms whose best similarity
reaches `min_pair_sim`. -/
def quickFracUser {J : Type} (env : CovEnv) (user_ingredients user_norm : List PyStr)
    (rdata : RecipeRec J) (min_pair_sim alpha : Rat) : Rat :=
  (((List.range user_ingredients.length).filter
      (fun i => min_pair_sim ≤ userBestF env user_ingredients user_norm rdata alpha i)).length : Rat) /
    user_ingredients.length

/-- Similarities with sub-threshold entries zeroed
(`sim_sub_copy[sim_sub_copy < min_pair_sim] = 0.0`). -/
def simSubCopyF {J : Type} (env : CovEnv) (user_ingredients user_norm : List PyStr)
    (rdata : RecipeRec J) (min_pair_sim alpha : Rat) : Nat → Nat → Rat := fun i j =>
  if simSubF env user_ingredients user_norm rdata alpha i j < min_pair_sim then 0
  else simSubF env user_ingredients user_norm rdata alpha i j

/-- The padded square cost matrix `1 - similarity` (padding cost 1.0). -/
def costF {J : Type} (env : CovEnv) (user_ingredients user_norm : List PyStr)
    (rdata : RecipeRec J) (min_pair_sim alpha : Rat) : Nat → Nat → Rat := fun i j =>
  if i < user_ingredients.length ∧ j < (canIngs rdata).length then
    1 - simSubCopyF env user_ingredients user_norm rdata min_pair_sim alpha i j
  else 1

/-- The optimal-assignment index pairs returned by `linear_sum_assignment`. -/
def lsaPairs {J : Type} (env : CovEnv) (user_ingredients user_norm : List PyStr)
    (rdata : RecipeRec J) (min_pair_sim alpha : Rat) : List (Nat × Nat) :=
  env.lsa (costF env user_ingredients user_norm rdata min_pair_sim alpha)
    (max user_ingredients.length (canIngs rdata).length)

/-- The matched similarity score of each assignment pair (padding pairs
score 0.0). -/
def matchedScoresF {J : Type} (env : CovEnv) (user_ingredients user_norm : List PyStr)
    (rdata : RecipeRec J) (min_pair_sim alpha : Rat) : List Rat :=
  (lsaPairs env user_ingredients user_norm rdata min_pair_sim alpha).map
    (fun p => if p.1 < user_ingredients.length ∧ p.2 < (canIngs rdata).length then
      simSubCopyF env user_ingredients user_norm rdata min_pair_sim alpha p.1 p.2
    else 0)

/-- Per-recipe body of the scorer loop (query_top_k.py:483-532): zero
coverage for a zero-ingredient recipe; a quick estimate below the skip
threshold short-circuits the assignment; otherwise Hungarian assignment on
the threshold-zeroed similarities. -/
def coverageForRecipe {J : Type} (env : CovEnv)
    (user_ingredients user_norm : List PyStr) (url : PyStr) (rdata : RecipeRec J)
    (min_pair_sim alpha skip_hungarian_threshold : Rat) :
    PyStr × PyStr × Rat × Rat :=
  if (canIngs rdata).length = 0 then (url, rdata.title, 0, 0)
  else if quickFracRecipe env user_ingredients user_norm rdata min_pair_sim alpha <
      skip_hungarian_threshold then
    (url, rdata.title,
      quickFracUser env user_ingredients user_norm rdata min_pair_sim alpha,
      quickFracRecipe env user_ingredients user_norm rdata min_pair_sim alpha)
  else
    (url, rdata.title,
      (((matchedScoresF env user_ingredients user_norm rdata min_pair_sim alpha).filter
          (fun v => decide (0 < v))).length : Rat) / user_ingredients.length,
      (matchedScoresF env user_ingredients user_norm rdata min_pair_sim alpha).sum /
        (canIngs rdata).length)

/-- Embedding of `bulk_compute_coverage` (query_top_k.py:423): empty user
list short-circuits to (0.0, 0.0); otherwise iterate the dict keys in sorted
order and score each recipe. -/
def bulk_compute_coverage {J : Type} (env : CovEnv)
    (recipes_dict : List (PyStr × RecipeRec J)) (user_ingredients : List PyStr)
    (min_pair_sim alpha skip_hungarian_threshold : Rat) :
    List (PyStr × PyStr × Rat × Rat) :=
  if user_ingredients.isEmpty then
    recipes_dict.map (fun e => (e.1, e.2.title, 0, 0))
  else
    let urls_sorted := List.insertionSort (fun a b => lexLeB a b = true)
      (recipes_dict.map (fun e => e.1))
    let user_norm := user_ingredients.map
      (fun uing => normalize_ingredient_name (get_canonical_ingredient env.ents uing))
    urls_sorted.filterMap (fun url =>
      (dictGet recipes_dict url).map (fun rdata =>
        coverageForRecipe env user_ingredients user_norm url rdata
          min_pair_sim alpha skip_hungarian_threshold))

theorem map_if_sum_eq_filter_length {α : Type} (q : α → Bool) :
    ∀ (l : List α),
      (l.map (fun a => if q a = true then (1 : Rat) else 0)).sum =
        ((l.filter q).length : Rat)
  | [] => by simp
  | a :: t => by
    rw [List.map_cons, List.sum_cons, List.filter_cons]
    by_cases hq : q a = true
    · rw [if_pos hq, if_pos hq, map_if_sum_eq_filter_length q t]
      rw [List.length_cons]
      push_cast
      ring
    · rw [if_neg hq, if_neg hq, map_if_sum_eq_filter_length q t]
      ring

theorem nodup_lt_length_le (l : List Nat) (n : Nat) (hn : l.Nodup)
    (hlt : ∀ x ∈ l, x < n) : l.length ≤ n := by
  have h1 : l.toFinset.card = l.length := List.toFinset_card_of_nodup hn
  have h2 : l.toFinset ⊆ Finset.range n := by
    intro x hx
    rw [Finset.mem_range]
    exact hlt x (List.mem_toFinset.mp hx)
  calc l.length = l.toFinset.card := h1.symm
    _ ≤ (Finset.range n).card := Finset.card_le_card h2
    _ = n := Finset.card_range n

theorem rat_sum_nonneg : ∀ (l : List Rat), (∀ a ∈ l, 0 ≤ a) → 0 ≤ l.sum
  | [], _ => le_refl 0
  | a :: t, h => by
    rw [List.sum_cons]
    have ht := rat_sum_nonneg t (fun b hb => h b (by simp [hb]))
    have ha := h a (by simp)
    linarith

theorem count_div_bounds (k n : Nat) (hn : 0 < n) (hk : k ≤ n) :
    0 ≤ (k : Rat) / n ∧ (k : Rat) / n ≤ 1 := by
  have hnp : (0 : Rat) < n := by exact_mod_cast hn
  constructor
  · positivity
  · rw [div_le_one hnp]
    exact_mod_cast hk

theorem simSubF_bounds {J : Type} (env : CovEnv)
    (user_ingredients user_norm : List PyStr) (rdata : RecipeRec J) (alpha : Rat)
    (hsim : ∀ a b, 0 ≤ env.simTSR a b ∧ env.simTSR a b ≤ 100)
    (halpha : 0 ≤ alpha ∧ alpha ≤ 1) (i j : Nat) :
    0 ≤ simSubF env user_ingredients user_norm rdata alpha i j ∧
      simSubF env user_ingredients user_norm rdata alpha i j ≤ 1 := by
  unfold simSubF
  have hx := hsim (getStr user_norm i) (getStr (canIngs rdata) j)
  have hy := hsim (getStr user_ingredients i) (getStr (rawIngs rdata) j)
  set x := env.simTSR (getStr user_norm i) (getStr (canIngs rdata) j)
  set y := env.simTSR (getStr user_ingredients i) (getStr (rawIngs rdata) j)
  have hx0 : 0 ≤ x / 100 := div_nonneg hx.1 (by norm_num)
  have hy0 : 0 ≤ y / 100 := div_nonneg hy.1 (by norm_num)
  have hx1 : x / 100 ≤ 1 := by
    rw [div_le_one (by norm_num)]
    exact hx.2
  have hy1 : y / 100 ≤ 1 := by
    rw [div_le_one (by norm_num)]
    exact hy.2
  have ha1 : (0 : Rat) ≤ 1 - alpha := by linarith [halpha.2]
  constructor
  · have h1 := mul_nonneg halpha.1 hx0
    have h2 := mul_nonneg ha1 hy0
    linarith
  · have h1 : alpha * (x / 100) ≤ alpha * 1 := mul_le_mul_of_nonneg_left hx1 halpha.1
    have h2 : (1 - alpha) * (y / 100) ≤ (1 - alpha) * 1 := mul_le_mul_of_nonneg_left hy1 ha1
    linarith

theorem simSubCopyF_bounds {J : Type} (env : CovEnv)
    (user_ingredients user_norm : List PyStr) (rdata : RecipeRec J)
    (min_pair_sim alpha : Rat)
    (hsim : ∀ a b, 0 ≤ env.simTSR a b ∧ env.simTSR a b ≤ 100)
    (halpha : 0 ≤ alpha ∧ alpha ≤ 1) (i j : Nat) :
    0 ≤ simSubCopyF env user_ingredients user_norm rdata min_pair_sim alpha i j ∧
      simSubCopyF env user_ingredients user_norm rdata min_pair_sim alpha i j ≤ 1 := by
  unfold simSubCopyF
  have h := simSubF_bounds env user_ingredients user_norm rdata alpha hsim halpha i j
  by_cases hc : simSubF env user_ingredients user_norm rdata alpha i j < min_pair_sim
  · rw [if_pos hc]
    norm_num
  · rw [if_neg hc]
    exact h

theorem assignment_sum_le (N M : Nat) (f : Nat → Nat → Rat)
    (hf : ∀ i j, 0 ≤ f i j ∧ f i j ≤ 1) (pairs : List (Nat × Nat))
    (hcol : (pairs.map Prod.snd).Nodup) :
    (pairs.map (fun p => if p.1 < N ∧ p.2 < M then f p.1 p.2 else 0)).sum ≤ (M : Rat) := by
  have hpt : ∀ p ∈ pairs,
      (fun (p : Nat × Nat) => if p.1 < N ∧ p.2 < M then f p.1 p.2 else 0) p ≤
        (fun (p : Nat × Nat) =>
          if (decide (p.1 < N) && decide (p.2 < M)) = true then (1 : Rat) else 0) p := by
    intro p _
    show (if p.1 < N ∧ p.2 < M then f p.1 p.2 else 0) ≤
      (if (decide (p.1 < N) && decide (p.2 < M)) = true then (1 : Rat) else 0)
    by_cases hc : p.1 < N ∧ p.2 < M
    · rw [if_pos hc, if_pos (by simp [hc.1, hc.2])]
      exact (hf p.1 p.2).2
    · rw [if_neg hc, if_neg (by simpa using hc)]
  have hsum := List.sum_le_sum hpt
  rw [map_if_sum_eq_filter_length (fun p => decide (p.1 < N) && decide (p.2 < M)) pairs]
    at hsum
  refine le_trans hsum ?_
  have hnd : ((pairs.filter (fun p => decide (p.1 < N) && decide (p.2 < M))).map
      Prod.snd).Nodup :=
    List.Nodup.sublist ((List.filter_sublist _).map Prod.snd) hcol
  have hlt : ∀ x ∈ (pairs.filter (fun p => decide (p.1 < N) && decide (p.2 < M))).map
      Prod.snd, x < M := by
    intro x hx
    rcases List.mem_map.mp hx with ⟨p, hp, hpx⟩
    have h2 := (List.mem_filter.mp hp).2
    simp only [Bool.and_eq_true, decide_eq_true_eq] at h2
    rw [← hpx]
    exact h2.2
  have hle := nodup_lt_length_le _ M hnd hlt
  rw [List.length_map] at hle
  exact_mod_cast hle

theorem assignment_pos_count_le (N M : Nat) (f : Nat → Nat → Rat)
    (pairs : List (Nat × Nat)) (hrow : (pairs.map Prod.fst).Nodup) :
    ((pairs.map (fun p => if p.1 < N ∧ p.2 < M then f p.1 p.2 else 0)).filter
      (fun v => decide (0 < v))).length ≤ N := by
  rw [List.filter_map, List.length_map]
  have hnd : ((pairs.filter ((fun v => decide (0 < v)) ∘
      (fun p => if p.1 < N ∧ p.2 < M then f p.1 p.2 else 0))).map Prod.fst).Nodup :=
    List.Nodup.sublist ((List.filter_sublist _).map Prod.fst) hrow
  have hlt : ∀ x ∈ (pairs.filter ((fun v => decide (0 < v)) ∘
      (fun p => if p.1 < N ∧ p.2 < M then f p.1 p.2 else 0))).map Prod.fst, x < N := by
    intro x hx
    rcases List.mem_map.mp hx with ⟨p, hp, hpx⟩
    have h2 := (List.mem_filter.mp hp).2
    simp only [Function.comp, decide_eq_true_eq] at h2
    by_cases hc : p.1 < N ∧ p.2 < M
    · rw [← hpx]
      exact hc.1
    · rw [if_neg hc] at h2
      exact absurd h2 (lt_irrefl 0)
  have hle := nodup_lt_length_le _ N hnd hlt
  rw [List.length_map] at hle
  exact hle

theorem coverageForRecipe_bounds {J : Type} (env : CovEnv)
    (user_ingredients user_norm : List PyStr) (url : PyStr) (rdata : RecipeRec J)
    (min_pair_sim alpha skip_thr : Rat)
    (hNe : user_ingredients ≠ [])
    (hsim : ∀ a b, 0 ≤ env.simTSR a b ∧ env.simTSR a b ≤ 100)
    (halpha : 0 ≤ alpha ∧ alpha ≤ 1)
    (hlsa : ∀ cost d, ((env.lsa cost d).map Prod.fst).Nodup ∧
      ((env.lsa cost d).map Prod.snd).Nodup) :
    0 ≤ (coverageForRecipe env user_ingredients user_norm url rdata min_pair_sim
        alpha skip_thr).2.2.1 ∧
      (coverageForRecipe env user_ingredients user_norm url rdata min_pair_sim
        alpha skip_thr).2.2.1 ≤ 1 ∧
      0 ≤ (coverageForRecipe env user_ingredients user_norm url rdata min_pair_sim
        alpha skip_thr).2.2.2 ∧
      (coverageForRecipe env user_ingredients user_norm url rdata min_pair_sim
        alpha skip_thr).2.2.2 ≤ 1 := by
  have hN : 0 < user_ingredients.length := List.length_pos.mpr hNe
  unfold coverageForRecipe
  by_cases hM : (canIngs rdata).length = 0
  · rw [if_pos hM]
    norm_num
  · rw [if_neg hM]
    have hM0 : 0 < (canIngs rdata).length := Nat.pos_of_ne_zero hM
    by_cases hquick : quickFracRecipe env user_ingredients user_norm rdata
        min_pair_sim alpha < skip_thr
    · rw [if_pos hquick]
      have hr : 0 ≤ quickFracRecipe env user_ingredients user_norm rdata
            min_pair_sim alpha ∧
          quickFracRecipe env user_ingredients user_norm rdata min_pair_sim alpha ≤ 1 := by
        unfold quickFracRecipe
        apply count_div_bounds _ _ hM0
        exact le_trans (List.length_filter_le _ _) (le_of_eq (List.length_range _))
      have hu : 0 ≤ quickFracUser env user_ingredients user_norm rdata
            min_pair_sim alpha ∧
          quickFracUser env user_ingredients user_norm rdata min_pair_sim alpha ≤ 1 := by
        unfold quickFracUser
        apply count_div_bounds _ _ hN
        exact le_trans (List.length_filter_le _ _) (le_of_eq (List.length_range _))
      exact ⟨hu.1, hu.2, hr.1, hr.2⟩
    · rw [if_neg hquick]
      have hfb := simSubCopyF_bounds env user_ingredients user_norm rdata
        min_pair_sim alpha hsim halpha
      have hMr : (0 : Rat) < (canIngs rdata).length := by exact_mod_cast hM0
      have hNr : (0 : Rat) < user_ingredients.length := by exact_mod_cast hN
      have hscores_nonneg : ∀ v ∈ matchedScoresF env user_ingredients user_norm
          rdata min_pair_sim alpha, 0 ≤ v := by
        intro v hv
        unfold matchedScoresF at hv
        rcases List.mem_map.mp hv with ⟨p, _, hpv⟩
        rw [← hpv]
        by_cases hc : p.1 < user_ingredients.length ∧ p.2 < (canIngs rdata).length
        · rw [if_pos hc]
          exact (hfb p.1 p.2).1
        · rw [if_neg hc]
      have hsum0 : 0 ≤ (matchedScoresF env user_ingredients user_norm rdata
          min_pair_sim alpha).sum := rat_sum_nonneg _ hscores_nonneg
      have hsumM : (matchedScoresF env user_ingredients user_norm rdata
            min_pair_sim alpha).sum ≤ ((canIngs rdata).length : Rat) := by
        unfold matchedScoresF
        exact assignment_sum_le user_ingredients.length (canIngs rdata).length
          (simSubCopyF env user_ingredients user_norm rdata min_pair_sim alpha)
          hfb (lsaPairs env user_ingredients user_norm rdata min_pair_sim alpha)
          (hlsa _ _).2
      have hcount : ((matchedScoresF env user_ingredients user_norm rdata
            min_pair_sim alpha).filter (fun v => decide (0 < v))).length ≤
          user_ingredients.length := by
        unfold matchedScoresF
        exact assignment_pos_count_le user_ingredients.length (canIngs rdata).length
          (simSubCopyF env user_ingredients user_norm rdata min_pair_sim alpha)
          (lsaPairs env user_ingredients user_norm rdata min_pair_sim alpha)
          (hlsa _ _).1
      refine ⟨by positivity, ?_, by positivity, ?_⟩
      · rw [div_le_one hNr]
        exact_mod_cast hcount
      · rw [div_le_one hMr]
        exact hsumM

/-- C3: every coverage result of the scorer — on all branches: empty user
list, zero-ingredient recipe, quick estimate, Hungarian assignment — has both
user_coverage and recipe_coverage within [0,1], whenever the similarity
scorer yields values in [0,100], the blend weight alpha lies in [0,1], and
the assignment routine returns pairwise-distinct row and column indices. -/
theorem c3_coverage_bounds {J : Type} (env : CovEnv)
    (recipes_dict : List (PyStr × RecipeRec J)) (user_ingredients : List PyStr)
    (min_pair_sim alpha skip_thr : Rat)
    (hsim : ∀ a b, 0 ≤ env.simTSR a b ∧ env.simTSR a b ≤ 100)
    (halpha : 0 ≤ alpha ∧ alpha ≤ 1)
    (hlsa : ∀ cost d, ((env.lsa cost d).map Prod.fst).Nodup ∧
      ((env.lsa cost d).map Prod.snd).Nodup) :
    ∀ r ∈ bulk_compute_coverage env recipes_dict user_ingredients min_pair_sim
        alpha skip_thr,
      0 ≤ r.2.2.1 ∧ r.2.2.1 ≤ 1 ∧ 0 ≤ r.2.2.2 ∧ r.2.2.2 ≤ 1 := by
  intro r hr
  unfold bulk_compute_coverage at hr
  by_cases hemp : user_ingredients.isEmpty
  · rw [if_pos hemp] at hr
    rcases List.mem_map.mp hr with ⟨e, _, her⟩
    rw [← her]
    norm_num
  · rw [if_neg hemp] at hr
    rcases List.mem_filterMap.mp hr with ⟨url, _, hsome⟩
    cases hd : dictGet recipes_dict url with
    | none => rw [hd] at hsome; simp at hsome
    | some rdata =>
      rw [hd] at hsome
      simp only [Option.map, Option.some.injEq] at hsome
      rw [← hsome]
      exact coverageForRecipe_bounds env user_ingredients _ url rdata min_pair_sim
        alpha skip_thr (fun hc => hemp (by rw [hc]; rfl)) hsim halpha hlsa

/-- C3 witness: the bounds theorem applied at a concrete environment (constant
similarity 100, diagonal-free empty assignment), one recipe and one user
ingredient. -/
def c3Rec : RecipeRec Bool :=
  ⟨[117], [116], [], [], [], [], [], [], none, none, none,
    [⟨[120], [120], [120]⟩], [], false⟩

def c3Env : CovEnv :=
  ⟨fun _ _ => 100, fun _ _ => [], fun _ => []⟩

theorem c3_coverage_bounds_witness :
    ((0 : Rat) ≤ (3 : Rat) / 4 ∧ (3 : Rat) / 4 ≤ 1) ∧
      ∀ r ∈ bulk_compute_coverage c3Env [([117], c3Rec)] [[120]] (9/10) (3/4) (3/10),
        0 ≤ r.2.2.1 ∧ r.2.2.1 ≤ 1 ∧ 0 ≤ r.2.2.2 ∧ r.2.2.2 ≤ 1 :=
  ⟨by norm_num,
    c3_coverage_bounds c3Env [([117], c3Rec)] [[120]] (9/10) (3/4) (3/10)
      (fun _ _ => by norm_num [c3Env]) (by norm_num)
      (fun _ _ => by simp [c3Env])⟩

/-!
Top-K Orchestrator (`query_top_k`, query_top_k.py:536): normalize inputs,
candidate filter, load, dedupe (with one doubled-limit retry when dedupe
empties a non-empty candidate set), coverage scoring with min_pair_sim=0.9
and alpha=0.75 fixed at the call site, threshold filter, sort descending by
(recipe_coverage, user_coverage), assemble records. -/

/-- The code point string "OR" (the default tag_filter_mode). -/
def orString : PyStr := [79, 82]

/-- Comparator of the final sort: descending lexicographic by
(recipe_coverage, user_coverage) — the order produced by
`df.sort_values(by=["recipe_coverage", "user_coverage"], ascending=[False, False])`. -/
def covDescLe : (PyStr × PyStr × Rat × Rat) → (PyStr × PyStr × Rat × Rat) → Prop :=
  fun a b => b.2.2.2 < a.2.2.2 ∨ (a.2.2.2 = b.2.2.2 ∧ b.2.2.1 ≤ a.2.2.1)

instance : DecidableRel covDescLe := fun a b =>
  inferInstanceAs (Decidable (b.2.2.2 < a.2.2.2 ∨ (a.2.2.2 = b.2.2.2 ∧ b.2.2.1 ≤ a.2.2.1)))

theorem covDescLe_total (a b : PyStr × PyStr × Rat × Rat) :
    covDescLe a b ∨ covDescLe b a := by
  unfold covDescLe
  rcases lt_trichotomy a.2.2.2 b.2.2.2 with h | h | h
  · exact Or.inr (Or.inl h)
  · rcases le_total b.2.2.1 a.2.2.1 with h2 | h2
    · exact Or.inl (Or.inr ⟨h, h2⟩)
    · exact Or.inr (Or.inr ⟨h.symm, h2⟩)
  · exact Or.inl (Or.inl h)

theorem covDescLe_trans (a b c : PyStr × PyStr × Rat × Rat)
    (h1 : covDescLe a b) (h2 : covDescLe b c) : covDescLe a c := by
  unfold covDescLe at h1 h2 ⊢
  rcases h1 with h1 | ⟨h1e, h1u⟩
  · rcases h2 with h2 | ⟨h2e, h2u⟩
    · exact Or.inl (lt_trans h2 h1)
    · exact Or.inl (h2e ▸ h1)
  · rcases h2 with h2 | ⟨h2e, h2u⟩
    · exact Or.inl (h1e.symm ▸ h2)
    · exact Or.inr ⟨h1e.trans h2e, le_trans h2u h1u⟩

/-- The final result record assembled by the orchestrator; `recipe = none`
models the `recipes_dict.get(url, {})` empty-dict default. -/
structure QueryRecord (J : Type) where
  url : PyStr
  title : PyStr
  user_coverage : Rat
  recipe_coverage : Rat
  matched_count : Nat
  recipe : Option (RecipeRec J)
deriving DecidableEq

/-- The orchestrator environment: scorer collaborators, loader collaborators,
and `serLen r` for `len(json.dumps(r))` used by the dedupe pass. -/
structure PipeEnv (J : Type) where
  cov : CovEnv
  load : LoadEnv J
  serLen : RecipeRec J → Nat

/-- Final stage of the orchestrator: threshold filter, descending
(recipe_coverage, user_coverage) sort, record assembly with the
matched_count looked up from the deduped candidates (default 0) and the full
hydrated recipe (default empty). -/
def assembleResults {J : Type} (deduped : List (PyStr × Nat))
    (recipes_dict : List (PyStr × RecipeRec J))
    (cov_results : List (PyStr × PyStr × Rat × Rat))
    (user_coverage_req recipe_coverage_req : Rat) : List (QueryRecord J) :=
  (List.insertionSort covDescLe
      (cov_results.filter (fun c =>
        decide (user_coverage_req ≤ c.2.2.1) && decide (recipe_coverage_req ≤ c.2.2.2)))).map
    (fun c =>
      ⟨c.1, c.2.1, c.2.2.1, c.2.2.2,
        ((deduped.find? (fun e => decide (e.1 = c.1))).map (fun e => e.2)).getD 0,
        dictGet recipes_dict c.1⟩)

/-- Embedding of `query_top_k` (query_top_k.py:536). -/
def query_top_k {J : Type} (env : PipeEnv J) (store : Store)
    (user_ingredients : List PyStr) (tag_filters excluded_tags : List (PyStr × List PyStr))
    (min_ing_matches : Nat) (forbidden_ingredients : List PyStr)
    (tag_filter_mode : PyStr) (max_steps : Nat)
    (user_coverage_req recipe_coverage_req : Rat)
    (keywords_to_include keywords_to_exclude must_use sources : List PyStr)
    (top_n_db : Nat) (skip_hungarian_threshold : Rat) : List (QueryRecord J) :=
  let norm_user := user_ingredients.map
    (fun u => normalize_ingredient_name (get_canonical_ingredient env.cov.ents u))
  let norm_forbidden := forbidden_ingredients.map
    (fun u => normalize_ingredient_name (get_canonical_ingredient env.cov.ents u))
  let norm_must := must_use.map
    (fun u => normalize_ingredient_name (get_canonical_ingredient env.cov.ents u))
  let candidates := build_candidate_urls store tag_filters excluded_tags norm_user
    min_ing_matches norm_forbidden norm_must tag_filter_mode max_steps
    keywords_to_include keywords_to_exclude sources top_n_db
  if candidates.isEmpty then []
  else
    let recipes_dict1 := load_bulk_recipes env.load store (candidates.map (fun c => c.1))
    let deduped1 := deduplicate_candidates env.cov.simTSR
      (fun u => ((dictGet recipes_dict1 u).map env.serLen).getD 0) candidates 95
    let deduped :=
      if deduped1.isEmpty then
        let candidates2 := build_candidate_urls store tag_filters excluded_tags
          norm_user min_ing_matches norm_forbidden norm_must tag_filter_mode
          max_steps keywords_to_include keywords_to_exclude sources (top_n_db * 2)
        let recipes_dict2 := load_bulk_recipes env.load store
          (candidates2.map (fun c => c.1))
        deduplicate_candidates env.cov.simTSR
          (fun u => ((dictGet recipes_dict2 u).map env.serLen).getD 0) candidates2 95
      else deduped1
    let recipes_dict := load_bulk_recipes env.load store (deduped.map (fun c => c.1))
    let cov_results := bulk_compute_coverage env.cov recipes_dict user_ingredients
      (9 / 10) (3 / 4) skip_hungarian_threshold
    assembleResults deduped recipes_dict cov_results user_coverage_req
      recipe_coverage_req

/-- Modelled from the spec: the pipeline as §4.5/§4.6 describe it, with
`min_pair_sim` and `alpha` as caller-tunable parameters passed through to the
coverage scorer; identical to `query_top_k` otherwise.  Used to compare the
implemented pipeline against the spec's tunable-parameter contract. -/
def query_top_k_knobs {J : Type} (env : PipeEnv J) (store : Store)
    (min_pair_sim alpha : Rat)
    (user_ingredients : List PyStr) (tag_filters excluded_tags : List (PyStr × List PyStr))
    (min_ing_matches : Nat) (forbidden_ingredients : List PyStr)
    (tag_filter_mode : PyStr) (max_steps : Nat)
    (user_coverage_req recipe_coverage_req : Rat)
    (keywords_to_include keywords_to_exclude must_use sources : List PyStr)
    (top_n_db : Nat) (skip_hungarian_threshold : Rat) : List (QueryRecord J) :=
  let norm_user := user_ingredients.map
    (fun u => normalize_ingredient_name (get_canonical_ingredient env.cov.ents u))
  let norm_forbidden := forbidden_ingredients.map
    (fun u => normalize_ingredient_name (get_canonical_ingredient env.cov.ents u))
  let norm_must := must_use.map
    (fun u => normalize_ingredient_name (get_canonical_ingredient env.cov.ents u))
  let candidates := build_candidate_urls store tag_filters excluded_tags norm_user
    min_ing_matches norm_forbidden norm_must tag_filter_mode max_steps
    keywords_to_include keywords_to_exclude sources top_n_db
  if candidates.isEmpty then []
  else
    let recipes_dict1 := load_bulk_recipes env.load store (candidates.map (fun c => c.1))
    let deduped1 := deduplicate_candidates env.cov.simTSR
      (fun u => ((dictGet recipes_dict1 u).map env.serLen).getD 0) candidates 95
    let deduped :=
      if deduped1.isEmpty then
        let candidates2 := build_candidate_urls store tag_filters excluded_tags
          norm_user min_ing_matches norm_forbidden norm_must tag_filter_mode
          max_steps keywords_to_include keywords_to_exclude sources (top_n_db * 2)
        let recipes_dict2 := load_bulk_recipes env.load store
          (candidates2.map (fun c => c.1))
        deduplicate_candidates env.cov.simTSR
          (fun u => ((dictGet recipes_dict2 u).map env.serLen).getD 0) candidates2 95
      else deduped1
    let recipes_dict := load_bulk_recipes env.load store (deduped.map (fun c => c.1))
    let cov_results := bulk_compute_coverage env.cov recipes_dict user_ingredients
      min_pair_sim alpha skip_hungarian_threshold
    assembleResults deduped recipes_dict cov_results user_coverage_req
      recipe_coverage_req

/-- C5 (amended): min_pair_sim and alpha are genuine tunable parameters of the
coverage scorer, but the query pipeline pins them: for every input,
`query_top_k` equals the knob-parameterized pipeline instantiated at exactly
min_pair_sim = 0.9 and alpha = 0.75; only skip_hungarian_threshold is
caller-tunable through the pipeline. -/
theorem c5_pipeline_pins_scoring_knobs {J : Type} (env : PipeEnv J) (store : Store)
    (user_ingredients : List PyStr) (tag_filters excluded_tags : List (PyStr × List PyStr))
    (min_ing_matches : Nat) (forbidden_ingredients : List PyStr)
    (tag_filter_mode : PyStr) (max_steps : Nat)
    (user_coverage_req recipe_coverage_req : Rat)
    (keywords_to_include keywords_to_exclude must_use sources : List PyStr)
    (top_n_db : Nat) (skip_hungarian_threshold : Rat) :
    query_top_k env store user_ingredients tag_filters excluded_tags
        min_ing_matches forbidden_ingredients tag_filter_mode max_steps
        user_coverage_req recipe_coverage_req keywords_to_include
        keywords_to_exclude must_use sources top_n_db skip_hungarian_threshold =
      query_top_k_knobs env store (9 / 10) (3 / 4) user_ingredients tag_filters
        excluded_tags min_ing_matches forbidden_ingredients tag_filter_mode
        max_steps user_coverage_req recipe_coverage_req keywords_to_include
        keywords_to_exclude must_use sources top_n_db skip_hungarian_threshold :=
  rfl

/-- C5 pipeline environment: similarity constant 70 (so the blended
similarity is 0.7, between the non-default 0.5 and the default 0.9
thresholds), diagonal assignment, no entities. -/
def c5Env : PipeEnv Bool :=
  ⟨⟨fun _ _ => 70, fun _ d => (List.range d).map (fun i => (i, i)), fun _ => []⟩,
    ⟨false, fun _ => none⟩, fun _ => 0⟩

def c5Schema : SchemaRow :=
  ⟨[117], none, none, none, none, none, none, none, none, none, none, none⟩

/-- C5 store: one recipe with one tag and one ingredient exactly matching the
user term "x". -/
def c5Store : Store :=
  ⟨[c5Schema], [⟨[117], [99], [99]⟩], [⟨[117], [120], some [120], none⟩], [], []⟩

/-- C5 (counterexample): at a concrete store and query, the pipeline's output
coincides with the knob-parameterized pipeline at the pinned defaults
(0.9, 0.75) and differs from it at the caller-chosen min_pair_sim = 0.5 —
with similarity 0.7 the defaults give coverage (0, 0) while min_pair_sim =
0.5 gives (1, 0.7). No argument of query_top_k lets a caller obtain the
latter: min_pair_sim and alpha are not exposed by the pipeline. -/
theorem c5_knobs_not_tunable_at_concrete_input :
    query_top_k c5Env c5Store [[120]] [] [] 1 [] orString 0 0 0 [] [] [] [] 3000 (1/5) =
        query_top_k_knobs c5Env c5Store (9/10) (3/4) [[120]] [] [] 1 [] orString 0 0 0
          [] [] [] [] 3000 (1/5) ∧
      query_top_k c5Env c5Store [[120]] [] [] 1 [] orString 0 0 0 [] [] [] [] 3000 (1/5) ≠
        query_top_k_knobs c5Env c5Store (1/2) (3/4) [[120]] [] [] 1 [] orString 0 0 0
          [] [] [] [] 3000 (1/5) :=
  ⟨rfl, by with_unfolding_all decide⟩

/-- Helper: sortedness and threshold membership of the orchestrator's final
stage, for any deduped candidates, recipe dict and coverage results. -/
theorem assembleResults_sorted {J : Type} (deduped : List (PyStr × Nat))
    (recipes_dict : List (PyStr × RecipeRec J))
    (cov_results : List (PyStr × PyStr × Rat × Rat)) (ucr rcr : Rat) :
    List.Chain' (fun a b : QueryRecord J =>
        b.recipe_coverage < a.recipe_coverage ∨
          (a.recipe_coverage = b.recipe_coverage ∧ b.user_coverage ≤ a.user_coverage))
      (assembleResults deduped recipes_dict cov_results ucr rcr) ∧
    ∀ r ∈ assembleResults deduped recipes_dict cov_results ucr rcr,
      ucr ≤ r.user_coverage ∧ rcr ≤ r.recipe_coverage := by
  haveI : IsTotal (PyStr × PyStr × Rat × Rat) covDescLe := ⟨covDescLe_total⟩
  haveI : IsTrans (PyStr × PyStr × Rat × Rat) covDescLe := ⟨covDescLe_trans⟩
  unfold assembleResults
  constructor
  · have hsorted := List.sorted_insertionSort covDescLe
      (cov_results.filter (fun c =>
        decide (ucr ≤ c.2.2.1) && decide (rcr ≤ c.2.2.2)))
    have hpw : List.Pairwise covDescLe
        (List.insertionSort covDescLe
          (cov_results.filter (fun c =>
            decide (ucr ≤ c.2.2.1) && decide (rcr ≤ c.2.2.2)))) := hsorted
    rw [List.chain'_map]
    exact (hpw.chain').imp (fun a b hab => hab)
  · intro r hr
    rcases List.mem_map.mp hr with ⟨c, hc, hcr⟩
    have hcf := ((List.perm_insertionSort covDescLe _).mem_iff).mp hc
    have hpred := (List.mem_filter.mp hcf).2
    simp only [Bool.and_eq_true, decide_eq_true_eq] at hpred
    rw [← hcr]
    exact ⟨hpred.1, hpred.2⟩

/-- C7: for every result list of the pipeline, consecutive records are
non-increasing in (recipe_coverage, user_coverage) lexicographic order, and
every returned record meets both caller thresholds
(user_coverage ≥ user_coverage_req and recipe_coverage ≥ recipe_coverage_req;
records below either threshold were filtered out before sorting). -/
theorem c7_results_sorted_and_thresholded {J : Type} (env : PipeEnv J)
    (store : Store) (user_ingredients : List PyStr)
    (tag_filters excluded_tags : List (PyStr × List PyStr))
    (min_ing_matches : Nat) (forbidden_ingredients : List PyStr)
    (tag_filter_mode : PyStr) (max_steps : Nat)
    (user_coverage_req recipe_coverage_req : Rat)
    (keywords_to_include keywords_to_exclude must_use sources : List PyStr)
    (top_n_db : Nat) (skip_hungarian_threshold : Rat) :
    List.Chain' (fun a b : QueryRecord J =>
        b.recipe_coverage < a.recipe_coverage ∨
          (a.recipe_coverage = b.recipe_coverage ∧ b.user_coverage ≤ a.user_coverage))
      (query_top_k env store user_ingredients tag_filters excluded_tags
        min_ing_matches forbidden_ingredients tag_filter_mode max_steps
        user_coverage_req recipe_coverage_req keywords_to_include
        keywords_to_exclude must_use sources top_n_db skip_hungarian_threshold) ∧
    ∀ r ∈ query_top_k env store user_ingredients tag_filters excluded_tags
        min_ing_matches forbidden_ingredients tag_filter_mode max_steps
        user_coverage_req recipe_coverage_req keywords_to_include
        keywords_to_exclude must_use sources top_n_db skip_hungarian_threshold,
      user_coverage_req ≤ r.user_coverage ∧ recipe_coverage_req ≤ r.recipe_coverage := by
  simp only [query_top_k]
  constructor
  · split
    · exact List.chain'_nil
    · exact (assembleResults_sorted _ _ _ _ _).1
  · split
    · intro r hr
      exact absurd hr (List.not_mem_nil r)
    · exact (assembleResults_sorted _ _ _ _ _).2

def c7Env : PipeEnv Bool :=
  ⟨⟨fun _ _ => 100, fun _ d => (List.range d).map (fun i => (i, i)), fun _ => []⟩,
    ⟨false, fun _ => none⟩, fun _ => 0⟩

def c7Store : Store :=
  ⟨[⟨[117], none, none, none, none, none, none, none, none, none, none, none⟩],
    [⟨[117], [99], [99]⟩], [⟨[117], [120], some [120], none⟩], [], []⟩

/-- C7 witness: the sort/threshold theorem applied at a concrete pipeline
invocation. -/
theorem c7_results_sorted_and_thresholded_witness :
    List.Chain' (fun a b : QueryRecord Bool =>
        b.recipe_coverage < a.recipe_coverage ∨
          (a.recipe_coverage = b.recipe_coverage ∧ b.user_coverage ≤ a.user_coverage))
      (query_top_k c7Env c7Store [[120]] [] [] 1 [] orString 0 0 0 [] [] [] [] 3000 (1/5)) ∧
    ∀ r ∈ query_top_k c7Env c7Store [[120]] [] [] 1 [] orString 0 0 0 [] [] [] [] 3000 (1/5),
      (0 : Rat) ≤ r.user_coverage ∧ (0 : Rat) ≤ r.recipe_coverage :=
  c7_results_sorted_and_thresholded c7Env c7Store [[120]] [] [] 1 [] orString 0 0 0
    [] [] [] [] 3000 (1/5)

end RecipeBot
